import Mathlib

/-!
Verification of the state normalization, reconciliation and budget-computation
engine of the hackathon-planner repository.

The TypeScript source is shallowly embedded:
* JavaScript `unknown` values are modelled by the inductive type `Value`
  (JS numbers are rationals, with a separate constructor for the non-finite
  numbers `NaN`/`Infinity`; `null` and `undefined` are merged into one
  constructor `vNull` since every embedded code path treats them alike:
  both are falsy, both fail every `typeof` test used by the source, and
  property access throws on both).
* JS objects become association lists in insertion order; property
  assignment (`acc[k] = v`) keeps the position of an existing key and
  appends a fresh key, mirroring JS property-order semantics.
* Code that can throw (property access on `null`/`undefined`) returns
  `Except Unit`.
* `Date.now()` and the random id generator used by `normalizeBudgetAttempts`
  are abstracted into an explicit environment `ImpureEnv`; the generated id
  models the template of the source (`createdAt-randomSuffix`), which is
  never a blank string.
-/

/-- Model of a JavaScript `unknown` value. `vNum` is a finite number;
`vNaN` stands for any non-finite number (`NaN`, `Infinity`, `-Infinity`):
its `typeof` is `number` but `Number.isFinite` is false. `vNull` models
both `null` and `undefined`. -/
inductive Value where
  | vNull
  | vBool (b : Bool)
  | vNum (q : ℚ)
  | vNaN
  | vStr (s : String)
  | vArr (elems : List Value)
  | vObj (fields : List (String × Value))

/-- Lookup of a key in a JS object, `none` when the property is absent. -/
def jsGet? {β : Type} (l : List (String × β)) (k : String) : Option β :=
  (l.find? (fun p => p.1 == k)).map (fun p => p.2)

/-- Property read `obj.k` on a value already known to be an object
(absent property gives `undefined`). -/
def jsValueAt (fields : List (String × Value)) (k : String) : Value :=
  (jsGet? fields k).getD .vNull

/-- Property read `x.k` on an arbitrary value: throws (`none`) on
`null`/`undefined`, yields `undefined` on other non-objects. -/
def jsGetProp : Value → String → Option Value
  | .vNull, _ => none
  | .vObj fields, k => some (jsValueAt fields k)
  | _, _ => some .vNull

/-- Optional-chaining read `x?.k`: `undefined` on `null`/`undefined` and on
non-objects, the property on objects. -/
def getFieldOpt : Value → String → Value
  | .vObj fields, k => jsValueAt fields k
  | _, _ => .vNull

/-- JS property assignment `acc[k] = v` on an association-list object:
an existing key keeps its position, a fresh key is appended. -/
def jsSet {β : Type} (l : List (String × β)) (k : String) (v : β) : List (String × β) :=
  if l.any (fun p => p.1 == k) then
    l.map (fun p => if p.1 == k then (k, v) else p)
  else
    l ++ [(k, v)]

/-- JS `delete acc[k]`. -/
def jsDelete {β : Type} (l : List (String × β)) (k : String) : List (String × β) :=
  l.filter (fun p => !(p.1 == k))

/-- JS whitespace recognized by the `trim` model. -/
def jsWhitespace (c : Char) : Bool :=
  c = ' ' ∨ c = '\t' ∨ c = '\n' ∨ c = '\r'

/-- Structural model of JS `String.prototype.trim`. -/
def jsTrimList (cs : List Char) : List Char :=
  ((cs.dropWhile jsWhitespace).reverse.dropWhile jsWhitespace).reverse

/-- Structural model of JS `String.prototype.trim` on strings. -/
def jsTrim (s : String) : String :=
  String.mk (jsTrimList s.toList)

/-- Numeric value of one decimal digit. -/
def digitVal (c : Char) : Option ℕ :=
  if c.isDigit then some (c.toNat - 48) else none

/-- Value of a digit string (empty list is 0, as in JS `Number("12.")`). -/
def digitsToNat? (cs : List Char) : Option ℕ :=
  cs.foldl (fun acc c => acc.bind (fun n => (digitVal c).map (fun d => 10 * n + d))) (some 0)

/-- Model of the JS `Number(string)` coercion restricted to plain decimal
literals with an optional sign; every other string (hex, exponent form,
words) is treated as `NaN` (`none`). -/
def jsStringToNum (s : String) : Option ℚ :=
  let t := jsTrimList s.toList
  let sign : ℚ := match t with
    | c :: _ => if c = '-' then -1 else 1
    | [] => 1
  let core := match t with
    | c :: rest => if c = '-' ∨ c = '+' then rest else t
    | [] => []
  let ip := core.takeWhile (fun c => c ≠ '.')
  match core.dropWhile (fun c => c ≠ '.') with
  | [] =>
      if ip.isEmpty then none
      else (digitsToNat? ip).map (fun n => sign * (n : ℚ))
  | _ :: fp =>
      if fp.any (fun c => c = '.') then none
      else if ip.isEmpty ∧ fp.isEmpty then none
      else
        match digitsToNat? ip, digitsToNat? fp with
        | some n, some f => some (sign * ((n : ℚ) + (f : ℚ) / ((10 : ℚ) ^ fp.length)))
        | _, _ => none

/-- `Flight` record of `types.ts`. -/
structure Flight where
  id : String
  link : String
  description : String
  startDate : String
  endDate : String
  pricePerPerson : ℚ
deriving DecidableEq

/-- `Accommodation` record of `types.ts`. -/
structure Accommodation where
  id : String
  link : String
  description : String
  startDate : String
  endDate : String
  totalPrice : ℚ
deriving DecidableEq

/-- `ExtraCost` record of `types.ts`. -/
structure ExtraCost where
  description : String
  value : ℚ
deriving DecidableEq

/-- `BudgetAttempt` record of `types.ts`. -/
structure BudgetAttempt where
  id : String
  name : String
  createdAt : ℚ
  flightAssignments : List (String × ℚ)
  selectedAccommodationId : String
  totalCost : ℚ
  remaining : ℚ
  perPersonTotal : ℚ
deriving DecidableEq

/-- `BudgetEstimatorState` record of `types.ts`. -/
structure BudgetEstimatorState where
  flightAssignments : List (String × ℚ)
  selectedAccommodationId : String
  fixedAttemptId : String
  attempts : List BudgetAttempt
deriving DecidableEq

/-- `PlannerSettings` record of `types.ts`. -/
structure PlannerSettings where
  totalBudget : ℚ
  peopleCount : ℚ
deriving DecidableEq

/-- `Partial<Flight>` quick-add draft. -/
structure FlightDraft where
  link : Option String := none
  description : Option String := none
  startDate : Option String := none
  endDate : Option String := none
  pricePerPerson : Option ℚ := none
deriving DecidableEq

/-- `Partial<Accommodation>` quick-add draft. -/
structure AccommodationDraft where
  link : Option String := none
  description : Option String := none
  startDate : Option String := none
  endDate : Option String := none
  totalPrice : Option ℚ := none
deriving DecidableEq

/-- `Destination` record of `types.ts`. -/
structure Destination where
  id : String
  name : String
  latitude : ℚ
  longitude : ℚ
  notes : String
  extraCosts : List ExtraCost
  budgetEstimator : BudgetEstimatorState
  flightDraft : FlightDraft
  accommodationDraft : AccommodationDraft
  flights : List Flight
  accommodations : List Accommodation
deriving DecidableEq

/-- `LegacyDestination` of `App.tsx`: the typed core of a destination with
the five migratable fields left `unknown`. -/
structure LegacyDestination where
  id : String
  name : String
  latitude : ℚ
  longitude : ℚ
  notes : Value
  extraCosts : Value
  budgetEstimator : Value
  flightDraft : Value
  accommodationDraft : Value
  flights : List Flight
  accommodations : List Accommodation

/-- Environment abstracting the two impure primitives used by
`normalizeBudgetAttempts`: `Date.now()` and the generated attempt id
(the source template `createdAt-randomSuffix` always trims non-blank,
recorded here as an invariant of the generator). -/
structure ImpureEnv where
  now : ℚ
  mkAttemptId : ℕ → String
  mkAttemptId_ok : ∀ i, jsTrim (mkAttemptId i) ≠ ""

/-- `parseNumberValue` of `App.tsx`: finite numbers pass through, non-blank
strings go through `Number(...)` and are kept when finite. -/
def parseNumberValue : Value → Option ℚ
  | .vNum q => some q
  | .vStr s => if jsTrim s == "" then none else jsStringToNum s
  | _ => none

/-- `parseTimestamp` of `App.tsx`: a finite number strictly greater than 0. -/
def parseTimestamp : Value → Option ℚ
  | .vNum q => if q ≤ 0 then none else some q
  | _ => none

/-- `TRIP_CODE_MIN_LENGTH` of `App.tsx`. -/
def TRIP_CODE_MIN_LENGTH : ℕ := 4

/-- `TRIP_CODE_MAX_LENGTH` of `App.tsx`. -/
def TRIP_CODE_MAX_LENGTH : ℕ := 12

/-- `normalizeTripCode` of `App.tsx`: uppercase, strip non-alphanumerics,
truncate to the maximum length (ASCII model of `toUpperCase`). -/
def normalizeTripCode (value : String) : String :=
  String.mk ((((value.toList.map Char.toUpper).filter
    (fun c => ('A' ≤ c ∧ c ≤ 'Z') ∨ ('0' ≤ c ∧ c ≤ '9')))).take TRIP_CODE_MAX_LENGTH)

/-- One array element of `normalizeExtraCosts` (`App.tsx`): property access
may throw on a `null`/`undefined` element; a non-string description becomes
`''` and a value that is not a finite number `>= 0` becomes `0`. -/
def normExtraCostElem (e : Value) : Except Unit ExtraCost :=
  match jsGetProp e "description", jsGetProp e "value" with
  | some d, some v =>
      .ok { description := match d with | .vStr s => s | _ => ""
            value := match v with | .vNum q => if 0 ≤ q then q else 0 | _ => 0 }
  | _, _ => .error ()

/-- `normalizeExtraCosts` of `App.tsx`: a finite scalar number `> 0` becomes a
one-element list with the generic description, any other scalar number the
empty list; an array is repaired per element and then filtered down to the
elements with a non-blank description or a positive value; everything else
becomes the empty list. -/
def normalizeExtraCosts : Value → Except Unit (List ExtraCost)
  | .vNum q => .ok (if 0 < q then [{ description := "General extra cost", value := q }] else [])
  | .vNaN => .ok []
  | .vArr elems =>
      (elems.mapM normExtraCostElem).map
        (fun costs => costs.filter (fun c => !(jsTrim c.description == "") || decide (0 < c.value)))
  | _ => .ok []

/-- Step of the `reduce` in `normalizeFlightAssignments` (`App.tsx`): keep a
finite number `>= 0`, floored, under its key. -/
def assignStep (acc : List (String × ℚ)) (kv : String × Value) : List (String × ℚ) :=
  match kv.2 with
  | .vNum q => if 0 ≤ q then jsSet acc kv.1 ((⌊q⌋ : ℤ) : ℚ) else acc
  | _ => acc

/-- `normalizeFlightAssignments` of `App.tsx`. -/
def normalizeFlightAssignments : Value → List (String × ℚ)
  | .vObj fields => fields.foldl assignStep []
  | _ => []

/-- One element of `normalizeBudgetAttempts` (`App.tsx`); `i` is the element
index, used to address the generated fallback id. -/
def normBudgetAttemptElem (env : ImpureEnv) (i : ℕ) : Value → Option BudgetAttempt
  | .vObj fields =>
      let createdAt := match jsValueAt fields "createdAt" with
        | .vNum q => q
        | _ => env.now
      some
        { id := match jsValueAt fields "id" with
            | .vStr s => if jsTrim s == "" then env.mkAttemptId i else s
            | _ => env.mkAttemptId i
          name := match jsValueAt fields "name" with
            | .vStr s => if jsTrim s == "" then "Saved attempt" else s
            | _ => "Saved attempt"
          createdAt
          flightAssignments := normalizeFlightAssignments (jsValueAt fields "flightAssignments")
          selectedAccommodationId := match jsValueAt fields "selectedAccommodationId" with
            | .vStr s => s
            | _ => ""
          totalCost := match jsValueAt fields "totalCost" with
            | .vNum q => q
            | _ => 0
          remaining := match jsValueAt fields "remaining" with
            | .vNum q => q
            | _ => 0
          perPersonTotal := match jsValueAt fields "perPersonTotal" with
            | .vNum q => q
            | _ => 0 }
  | _ => none

/-- `normalizeBudgetAttempts` of `App.tsx`: per-element repair (non-object
elements are dropped), then `slice(0, 40)`. -/
def normalizeBudgetAttempts (env : ImpureEnv) : Value → List BudgetAttempt
  | .vArr elems =>
      ((elems.enum.map (fun p => normBudgetAttemptElem env p.1 p.2)).reduceOption).take 40
  | _ => []

/-- `normalizeBudgetEstimator` of `App.tsx`: rebuilds the single-attempt
invariant: the attempt matching the stored `fixedAttemptId`, else the first
normalized attempt, else none; `fixedAttemptId` is regenerated from the
surviving attempt (the source's `|| ''` maps a blank id to `''`). -/
def normalizeBudgetEstimator (env : ImpureEnv) (budgetEstimator : Value) : BudgetEstimatorState :=
  let attempts := normalizeBudgetAttempts env (getFieldOpt budgetEstimator "attempts")
  let fixedAttemptId := match getFieldOpt budgetEstimator "fixedAttemptId" with
    | .vStr s => s
    | _ => ""
  let preferredAttempt := (attempts.find? (fun a => a.id == fixedAttemptId)).orElse
    (fun _ => attempts.head?)
  let normalizedAttempts := match preferredAttempt with
    | some a => [a]
    | none => []
  let normalizedFixedAttemptId := match normalizedAttempts.head? with
    | some a => if a.id == "" then "" else a.id
    | none => ""
  { flightAssignments := normalizeFlightAssignments (getFieldOpt budgetEstimator "flightAssignments")
    selectedAccommodationId := match getFieldOpt budgetEstimator "selectedAccommodationId" with
      | .vStr s => s
      | _ => ""
    fixedAttemptId := normalizedFixedAttemptId
    attempts := normalizedAttempts }

/-- `normalizeFlightDraft` of `App.tsx`: copy over only the individually
well-typed fields. -/
def normalizeFlightDraft : Value → FlightDraft
  | .vObj fields =>
      { link := match jsValueAt fields "link" with | .vStr s => some s | _ => none
        description := match jsValueAt fields "description" with | .vStr s => some s | _ => none
        startDate := match jsValueAt fields "startDate" with | .vStr s => some s | _ => none
        endDate := match jsValueAt fields "endDate" with | .vStr s => some s | _ => none
        pricePerPerson := match jsValueAt fields "pricePerPerson" with
          | .vNum q => if 0 ≤ q then some q else none
          | _ => none }
  | _ => {}

/-- `normalizeAccommodationDraft` of `App.tsx`. -/
def normalizeAccommodationDraft : Value → AccommodationDraft
  | .vObj fields =>
      { link := match jsValueAt fields "link" with | .vStr s => some s | _ => none
        description := match jsValueAt fields "description" with | .vStr s => some s | _ => none
        startDate := match jsValueAt fields "startDate" with | .vStr s => some s | _ => none
        endDate := match jsValueAt fields "endDate" with | .vStr s => some s | _ => none
        totalPrice := match jsValueAt fields "totalPrice" with
          | .vNum q => if 0 ≤ q then some q else none
          | _ => none }
  | _ => {}

/-- A string field of a listed record, defaulting to `''`. -/
def stringFieldOr (fields : List (String × Value)) (k : String) : String :=
  match jsValueAt fields k with
  | .vStr s => s
  | _ => ""

/-- The coerced price of a listed record (`parsedPrice !== null &&
parsedPrice >= 0 ? parsedPrice : 0` in `App.tsx`). -/
def coercedPrice (fields : List (String × Value)) (priceKey : String) : ℚ :=
  match parseNumberValue (jsValueAt fields priceKey) with
  | some p => if 0 ≤ p then p else 0
  | none => 0

/-- `normalizeFlightList` of `App.tsx`: non-objects and records without a
non-blank string id are dropped; all other fields are defaulted, the price
through `coercedPrice`. -/
def normalizeFlightList : Value → List Flight
  | .vArr elems =>
      (elems.map (fun flight =>
        match flight with
        | .vObj fields =>
            match jsValueAt fields "id" with
            | .vStr id =>
                if jsTrim id == "" then none
                else some
                  { id
                    link := stringFieldOr fields "link"
                    description := stringFieldOr fields "description"
                    startDate := stringFieldOr fields "startDate"
                    endDate := stringFieldOr fields "endDate"
                    pricePerPerson := coercedPrice fields "pricePerPerson" }
            | _ => none
        | _ => none)).reduceOption
  | _ => []

/-- `normalizeAccommodationList` of `App.tsx`. -/
def normalizeAccommodationList : Value → List Accommodation
  | .vArr elems =>
      (elems.map (fun accommodation =>
        match accommodation with
        | .vObj fields =>
            match jsValueAt fields "id" with
            | .vStr id =>
                if jsTrim id == "" then none
                else some
                  { id
                    link := stringFieldOr fields "link"
                    description := stringFieldOr fields "description"
                    startDate := stringFieldOr fields "startDate"
                    endDate := stringFieldOr fields "endDate"
                    totalPrice := coercedPrice fields "totalPrice" }
            | _ => none
        | _ => none)).reduceOption
  | _ => []

/-- `normalizeDestination` of `App.tsx` over the typed legacy record; the
`Except` propagates the possible throw of `normalizeExtraCosts`. -/
def normalizeDestination (env : ImpureEnv) (destination : LegacyDestination) :
    Except Unit Destination :=
  (normalizeExtraCosts destination.extraCosts).map (fun extraCosts =>
    { id := destination.id
      name := destination.name
      latitude := destination.latitude
      longitude := destination.longitude
      notes := match destination.notes with | .vStr s => s | _ => ""
      extraCosts
      budgetEstimator := normalizeBudgetEstimator env destination.budgetEstimator
      flightDraft := normalizeFlightDraft destination.flightDraft
      accommodationDraft := normalizeAccommodationDraft destination.accommodationDraft
      flights := destination.flights
      accommodations := destination.accommodations })

/-- `normalizeDestinationCandidate` of `App.tsx`: shape checks on id, name and
coordinates, then full per-destination normalization; `ok none` is the
source's `null` (record rejected). -/
def normalizeDestinationCandidate (env : ImpureEnv) (candidate : Value) :
    Except Unit (Option Destination) :=
  match candidate with
  | .vObj fields =>
      match jsValueAt fields "id", jsValueAt fields "name" with
      | .vStr id, .vStr name =>
          if jsTrim id == "" || jsTrim name == "" then .ok none
          else
            match parseNumberValue (jsValueAt fields "latitude"),
                parseNumberValue (jsValueAt fields "longitude") with
            | some latitude, some longitude =>
                (normalizeDestination env
                  { id, name, latitude, longitude
                    notes := jsValueAt fields "notes"
                    extraCosts := jsValueAt fields "extraCosts"
                    budgetEstimator := jsValueAt fields "budgetEstimator"
                    flightDraft := jsValueAt fields "flightDraft"
                    accommodationDraft := jsValueAt fields "accommodationDraft"
                    flights := normalizeFlightList (jsValueAt fields "flights")
                    accommodations :=
                      normalizeAccommodationList (jsValueAt fields "accommodations") }).map some
            | _, _ => .ok none
      | _, _ => .ok none
  | _ => .ok none

/-- `normalizeSettings` of `App.tsx`: field-by-field fallback to the previous
known-good settings. -/
def normalizeSettings (candidate : Value) (fallback : PlannerSettings) : PlannerSettings :=
  match candidate with
  | .vObj fields =>
      { totalBudget := match jsValueAt fields "totalBudget" with
          | .vNum q => if 0 ≤ q then q else fallback.totalBudget
          | _ => fallback.totalBudget
        peopleCount := match jsValueAt fields "peopleCount" with
          | .vNum q => if 0 < q then ((⌊q⌋ : ℤ) : ℚ) else fallback.peopleCount
          | _ => fallback.peopleCount }
  | _ => fallback

/-- Result record of `parseTripSyncPayload`. -/
structure TripSyncParsed where
  destinations : List Destination
  settings : PlannerSettings
  remoteUpdatedAt : Option ℚ
deriving DecidableEq

/-- `parseTripSyncPayload` of `App.tsx`: top-level shape check, per-destination
normalization, fail-closed when a non-empty array yields no valid
destination. -/
def parseTripSyncPayload (env : ImpureEnv) (payload : Value)
    (fallbackSettings : PlannerSettings) : Except Unit (Option TripSyncParsed) :=
  match payload with
  | .vObj fields =>
      match jsValueAt fields "destinations" with
      | .vArr elems =>
          (elems.mapM (normalizeDestinationCandidate env)).map (fun candidates =>
            let destinations := candidates.reduceOption
            if elems.length > 0 ∧ destinations.length = 0 then none
            else some
              { destinations
                settings := normalizeSettings (jsValueAt fields "settings") fallbackSettings
                remoteUpdatedAt :=
                  parseTimestamp (getFieldOpt (jsValueAt fields "meta") "updatedAt") })
      | _ => .ok none
  | _ => .ok none

/-- `BudgetSnapshot` of `utils/budget.ts`. -/
structure BudgetSnapshot where
  assignedPeopleCount : ℚ
  flightCost : ℚ
  accommodationCost : ℚ
  extraCostsCost : ℚ
  totalCost : ℚ
  remaining : ℚ
  perPersonTotal : ℚ
  perPersonRemaining : ℚ
  isOverAssigned : Bool
deriving DecidableEq

/-- `SnapshotInput` of `utils/budget.ts`. -/
structure SnapshotInput where
  flights : List Flight
  accommodations : List Accommodation
  flightAssignments : List (String × ℚ)
  selectedAccommodationId : String
  extraCosts : List ExtraCost
  settings : PlannerSettings
deriving DecidableEq

/-- `calculateBudgetSnapshot` of `utils/budget.ts`, the pure budget
calculator. -/
def calculateBudgetSnapshot (input : SnapshotInput) : BudgetSnapshot :=
  let accommodation := input.accommodations.find?
    (fun item => item.id == input.selectedAccommodationId)
  let accommodationCost := match accommodation with
    | some a => a.totalPrice
    | none => 0
  let flightCost := input.flightAssignments.foldl
    (fun total kv => total +
      (match input.flights.find? (fun item => item.id == kv.1) with
       | some flight => flight.pricePerPerson * kv.2
       | none => 0)) 0
  let assignedPeopleCount := input.flightAssignments.foldl
    (fun total kv =>
      if input.flights.any (fun item => item.id == kv.1) then total + kv.2 else total) 0
  let extraCostsCost := input.extraCosts.foldl (fun total extraCost => total + extraCost.value) 0
  let totalCost := flightCost + accommodationCost + extraCostsCost
  let remaining := input.settings.totalBudget - totalCost
  let safePeopleCount := max 1 input.settings.peopleCount
  { assignedPeopleCount
    flightCost
    accommodationCost
    extraCostsCost
    totalCost
    remaining
    perPersonTotal := totalCost / safePeopleCount
    perPersonRemaining := remaining / safePeopleCount
    isOverAssigned := decide (input.settings.peopleCount < assignedPeopleCount) }

/-- `handleFlightsChange` of `DestinationView.tsx`: replaces the flights,
prunes assignments (live and of the single stored attempt) to the surviving
flight ids, and recomputes the attempt's frozen cost fields. -/
def handleFlightsChange (settings : PlannerSettings) (flights : List Flight)
    (currentDestination : Destination) : Destination :=
  let validFlightIds := flights.map (fun flight => flight.id)
  let nextFlightAssignments := currentDestination.budgetEstimator.flightAssignments.foldl
    (fun acc kv => if validFlightIds.contains kv.1 then jsSet acc kv.1 kv.2 else acc) []
  let nextAttempts := (currentDestination.budgetEstimator.attempts.take 1).map (fun attempt =>
    let nextAttemptAssignments := attempt.flightAssignments.foldl
      (fun acc kv => if validFlightIds.contains kv.1 then jsSet acc kv.1 kv.2 else acc) []
    let nextSnapshot := calculateBudgetSnapshot
      { flights
        accommodations := currentDestination.accommodations
        flightAssignments := nextAttemptAssignments
        selectedAccommodationId := attempt.selectedAccommodationId
        extraCosts := currentDestination.extraCosts
        settings }
    { attempt with
        flightAssignments := nextAttemptAssignments
        totalCost := nextSnapshot.totalCost
        remaining := nextSnapshot.remaining
        perPersonTotal := nextSnapshot.perPersonTotal })
  let fixedAttemptId := match nextAttempts.head? with
    | some a => if a.id == "" then "" else a.id
    | none => ""
  { currentDestination with
      flights
      budgetEstimator :=
        { currentDestination.budgetEstimator with
            flightAssignments := nextFlightAssignments
            attempts := nextAttempts
            fixedAttemptId } }

/-- `handleAssignmentChange` of `BudgetCalculator.tsx`: negative counts are
ignored, a zero count deletes the key, a positive count stores it. -/
def handleAssignmentChange (flightAssignments : List (String × ℚ)) (flightId : String)
    (count : ℚ) : List (String × ℚ) :=
  if count < 0 then flightAssignments
  else if count = 0 then jsDelete flightAssignments flightId
  else jsSet flightAssignments flightId count

/-- `handleAttemptsChange` of `DestinationView.tsx`: keep at most one attempt
and re-sync `fixedAttemptId` to it. -/
def handleAttemptsChange (attempts : List BudgetAttempt) (e : BudgetEstimatorState) :
    BudgetEstimatorState :=
  let nextAttempts := attempts.take 1
  { e with
      attempts := nextAttempts
      fixedAttemptId := match nextAttempts.head? with
        | some a => if a.id == "" then "" else a.id
        | none => "" }

/-- `handleFixedAttemptIdChange` of `DestinationView.tsx`: accept the id only
when non-blank and present among the attempts. -/
def handleFixedAttemptIdChange (fixedAttemptId : String) (e : BudgetEstimatorState) :
    BudgetEstimatorState :=
  { e with
      fixedAttemptId :=
        if fixedAttemptId ≠ "" ∧ e.attempts.any (fun attempt => attempt.id == fixedAttemptId)
        then fixedAttemptId else "" }

/-- `savedAttempt` of `BudgetCalculator.tsx`: the attempt matching
`fixedAttemptId`, else the first attempt, else none. -/
def savedAttemptOf (attempts : List BudgetAttempt) (fixedAttemptId : String) :
    Option BudgetAttempt :=
  (attempts.find? (fun attempt => attempt.id == fixedAttemptId)).orElse
    (fun _ => attempts.head?)

/-- `replaceSavedWithCurrent` of `BudgetCalculator.tsx` combined with the two
updater callbacks it invokes (`handleAttemptsChange` then
`handleFixedAttemptIdChange`): overrides the saved baseline with the current
draft, keeping the attempt id. -/
def replaceSavedWithCurrent (e : BudgetEstimatorState) (snapshot : BudgetSnapshot)
    (now : ℚ) : BudgetEstimatorState :=
  match savedAttemptOf e.attempts e.fixedAttemptId with
  | none => e
  | some savedAttempt =>
      let updatedAttempt : BudgetAttempt :=
        { savedAttempt with
            name := "Saved baseline"
            createdAt := now
            flightAssignments := e.flightAssignments
            selectedAccommodationId := e.selectedAccommodationId
            totalCost := snapshot.totalCost
            remaining := snapshot.remaining
            perPersonTotal := snapshot.perPersonTotal }
      handleFixedAttemptIdChange updatedAttempt.id (handleAttemptsChange [updatedAttempt] e)

/-- Status kinds of the sync panel (`App.tsx`). -/
inductive SyncStatusKind where
  | neutral
  | success
  | warning
  | error
deriving DecidableEq

/-- Client-side sync bookkeeping read by `handlePushToTrip`: the remote
document at the trip code's path and the two per-code timestamp maps. -/
structure PushState where
  remote : Option Value
  lastKnownRemoteByCode : List (String × ℚ)
  lastLocalPushByCode : List (String × ℚ)

/-- Externally observable outcome of one `handlePushToTrip` run:
`confirmationRequested` records whether `window.confirm` was invoked and
`wrote` whether `set(tripRef, payload)` ran. -/
structure PushOutcome where
  remote : Option Value
  lastKnownRemoteByCode : List (String × ℚ)
  lastLocalPushByCode : List (String × ℚ)
  confirmationRequested : Bool
  wrote : Bool
  statusKind : SyncStatusKind

/-- `handlePushToTrip` of `App.tsx` as a pure transition: guards on
availability and code length, staleness detection against the last-known
remote timestamp, user confirmation on a stale push, and the write with both
markers updated. `confirmResponse` is the user's answer to the
`window.confirm` dialog (only consulted when the dialog shows). -/
def handlePushToTrip (available : Bool) (tripCode : String) (st : PushState)
    (destinationsPayload settingsPayload : Value) (confirmResponse : Bool)
    (now : ℚ) (syncClientId : String) : PushOutcome :=
  let normalizedTripCode := normalizeTripCode tripCode
  if !available then
    { remote := st.remote
      lastKnownRemoteByCode := st.lastKnownRemoteByCode
      lastLocalPushByCode := st.lastLocalPushByCode
      confirmationRequested := false
      wrote := false
      statusKind := .error }
  else if normalizedTripCode.length < TRIP_CODE_MIN_LENGTH then
    { remote := st.remote
      lastKnownRemoteByCode := st.lastKnownRemoteByCode
      lastLocalPushByCode := st.lastLocalPushByCode
      confirmationRequested := false
      wrote := false
      statusKind := .warning }
  else
    let remoteUpdatedAt := match st.remote with
      | some remotePayload => parseTimestamp (getFieldOpt (getFieldOpt remotePayload "meta") "updatedAt")
      | none => none
    let knownRemoteUpdatedAt := (jsGet? st.lastKnownRemoteByCode normalizedTripCode).getD 0
    let isStale : Bool := match remoteUpdatedAt with
      | some t => decide (knownRemoteUpdatedAt < t)
      | none => false
    if isStale ∧ confirmResponse = false then
      { remote := st.remote
        lastKnownRemoteByCode := st.lastKnownRemoteByCode
        lastLocalPushByCode := st.lastLocalPushByCode
        confirmationRequested := true
        wrote := false
        statusKind := .warning }
    else
      { remote := some (.vObj
          [("destinations", destinationsPayload),
           ("settings", settingsPayload),
           ("meta", .vObj [("updatedAt", .vNum now), ("updatedBy", .vStr syncClientId)])])
        lastKnownRemoteByCode := jsSet st.lastKnownRemoteByCode normalizedTripCode now
        lastLocalPushByCode := jsSet st.lastLocalPushByCode normalizedTripCode now
        confirmationRequested := isStale
        wrote := true
        statusKind := .success }

/-- JSON encoding of an extra cost, used to feed normalizer output back into
the normalizers. -/
def ExtraCost.toValue (c : ExtraCost) : Value :=
  .vObj [("description", .vStr c.description), ("value", .vNum c.value)]

/-- JSON encoding of a flight-assignment map. -/
def assignmentsToValue (m : List (String × ℚ)) : Value :=
  .vObj (m.map (fun kv => (kv.1, .vNum kv.2)))

/-- JSON encoding of a budget attempt. -/
def BudgetAttempt.toValue (a : BudgetAttempt) : Value :=
  .vObj
    [("id", .vStr a.id),
     ("name", .vStr a.name),
     ("createdAt", .vNum a.createdAt),
     ("flightAssignments", assignmentsToValue a.flightAssignments),
     ("selectedAccommodationId", .vStr a.selectedAccommodationId),
     ("totalCost", .vNum a.totalCost),
     ("remaining", .vNum a.remaining),
     ("perPersonTotal", .vNum a.perPersonTotal)]

/-- JSON encoding of a budget-estimator state. -/
def BudgetEstimatorState.toValue (e : BudgetEstimatorState) : Value :=
  .vObj
    [("flightAssignments", assignmentsToValue e.flightAssignments),
     ("selectedAccommodationId", .vStr e.selectedAccommodationId),
     ("fixedAttemptId", .vStr e.fixedAttemptId),
     ("attempts", .vArr (e.attempts.map BudgetAttempt.toValue))]

/-- Encoding of a flight draft back into an object: an absent optional field
is encoded as `undefined`, which every property read of the normalizers
treats exactly like an omitted key. -/
def FlightDraft.toValue (d : FlightDraft) : Value :=
  .vObj
    [("link", match d.link with | some s => .vStr s | none => .vNull),
     ("description", match d.description with | some s => .vStr s | none => .vNull),
     ("startDate", match d.startDate with | some s => .vStr s | none => .vNull),
     ("endDate", match d.endDate with | some s => .vStr s | none => .vNull),
     ("pricePerPerson", match d.pricePerPerson with | some q => .vNum q | none => .vNull)]

/-- Encoding of an accommodation draft back into an object. -/
def AccommodationDraft.toValue (d : AccommodationDraft) : Value :=
  .vObj
    [("link", match d.link with | some s => .vStr s | none => .vNull),
     ("description", match d.description with | some s => .vStr s | none => .vNull),
     ("startDate", match d.startDate with | some s => .vStr s | none => .vNull),
     ("endDate", match d.endDate with | some s => .vStr s | none => .vNull),
     ("totalPrice", match d.totalPrice with | some q => .vNum q | none => .vNull)]

/-- JSON encoding of a flight. -/
def Flight.toValue (f : Flight) : Value :=
  .vObj
    [("id", .vStr f.id),
     ("link", .vStr f.link),
     ("description", .vStr f.description),
     ("startDate", .vStr f.startDate),
     ("endDate", .vStr f.endDate),
     ("pricePerPerson", .vNum f.pricePerPerson)]

/-- JSON encoding of an accommodation. -/
def Accommodation.toValue (a : Accommodation) : Value :=
  .vObj
    [("id", .vStr a.id),
     ("link", .vStr a.link),
     ("description", .vStr a.description),
     ("startDate", .vStr a.startDate),
     ("endDate", .vStr a.endDate),
     ("totalPrice", .vNum a.totalPrice)]

/-- JSON encoding of planner settings. -/
def PlannerSettings.toValue (s : PlannerSettings) : Value :=
  .vObj [("totalBudget", .vNum s.totalBudget), ("peopleCount", .vNum s.peopleCount)]

/-- JSON encoding of a whole destination. -/
def Destination.toValue (d : Destination) : Value :=
  .vObj
    [("id", .vStr d.id),
     ("name", .vStr d.name),
     ("latitude", .vNum d.latitude),
     ("longitude", .vNum d.longitude),
     ("notes", .vStr d.notes),
     ("extraCosts", .vArr (d.extraCosts.map ExtraCost.toValue)),
     ("budgetEstimator", d.budgetEstimator.toValue),
     ("flightDraft", d.flightDraft.toValue),
     ("accommodationDraft", d.accommodationDraft.toValue),
     ("flights", .vArr (d.flights.map Flight.toValue)),
     ("accommodations", .vArr (d.accommodations.map Accommodation.toValue))]

/-- Spec-side formula (claim C1): the summed flight cost, a missing flight
contributing 0. -/
def specFlightCost (flights : List Flight) (flightAssignments : List (String × ℚ)) : ℚ :=
  (flightAssignments.map (fun kv =>
    match flights.find? (fun item => item.id == kv.1) with
    | some flight => flight.pricePerPerson * kv.2
    | none => 0)).sum

/-- Spec-side formula (claim C1): the summed counts of assignments whose
flight id exists in the flight list. -/
def specAssignedPeopleCount (flights : List Flight)
    (flightAssignments : List (String × ℚ)) : ℚ :=
  ((flightAssignments.filter (fun kv => flights.any (fun item => item.id == kv.1))).map
    (fun kv => kv.2)).sum

/-- Spec-side formula (claim C1): the total price of the accommodation
matching the selected id, or 0 when unset or unmatched. -/
def specAccommodationCost (accommodations : List Accommodation)
    (selectedAccommodationId : String) : ℚ :=
  match accommodations.find? (fun item => item.id == selectedAccommodationId) with
  | some a => a.totalPrice
  | none => 0

/-- Spec-side predicate (amended claim C3): a listed record survives exactly
when it is an object with a non-blank string id. -/
def keepsListedRecord (e : Value) : Bool :=
  match e with
  | .vObj fields =>
      match jsValueAt fields "id" with
      | .vStr s => !(jsTrim s == "")
      | _ => false
  | _ => false

/-- Spec-side flight repair (amended claim C3): the surviving record with
string fields defaulted and the price coerced, `0` when coercion fails or the
price is negative. -/
def specRepairFlight (e : Value) : Flight :=
  match e with
  | .vObj fields =>
      { id := match jsValueAt fields "id" with | .vStr s => s | _ => ""
        link := stringFieldOr fields "link"
        description := stringFieldOr fields "description"
        startDate := stringFieldOr fields "startDate"
        endDate := stringFieldOr fields "endDate"
        pricePerPerson := coercedPrice fields "pricePerPerson" }
  | _ =>
      { id := "", link := "", description := "", startDate := "", endDate := ""
        pricePerPerson := 0 }

/-- Spec-side accommodation repair (amended claim C3). -/
def specRepairAccommodation (e : Value) : Accommodation :=
  match e with
  | .vObj fields =>
      { id := match jsValueAt fields "id" with | .vStr s => s | _ => ""
        link := stringFieldOr fields "link"
        description := stringFieldOr fields "description"
        startDate := stringFieldOr fields "startDate"
        endDate := stringFieldOr fields "endDate"
        totalPrice := coercedPrice fields "totalPrice" }
  | _ =>
      { id := "", link := "", description := "", startDate := "", endDate := ""
        totalPrice := 0 }

/-- Spec-side list normalization (amended claim C3): drop exactly the
elements that are not objects with a non-blank string id, repair the rest. -/
def specFlightList : Value → List Flight
  | .vArr elems => (elems.filter keepsListedRecord).map specRepairFlight
  | _ => []

/-- Spec-side accommodation-list normalization (amended claim C3). -/
def specAccommodationList : Value → List Accommodation
  | .vArr elems => (elems.filter keepsListedRecord).map specRepairAccommodation
  | _ => []

/-- Spec-side element repair of `normalizeExtraCosts` on a non-throwing array
element (amended claim C9). -/
def specRepairExtraCost (e : Value) : ExtraCost :=
  { description := match jsGetProp e "description" with | some (.vStr s) => s | _ => ""
    value := match jsGetProp e "value" with
      | some (.vNum q) => if 0 ≤ q then q else 0
      | _ => 0 }

/-- Whether a value is `null`/`undefined` (the array elements on which
`normalizeExtraCosts` throws). -/
def isVNull : Value → Bool
  | .vNull => true
  | _ => false

theorem foldl_add_map {α : Type} (f : α → ℚ) (l : List α) :
    ∀ a : ℚ, l.foldl (fun t x => t + f x) a = a + (l.map f).sum := by
  induction l with
  | nil => intro a; simp
  | cons x xs ih => intro a; simp [ih, add_assoc]

theorem foldl_add_ite {α : Type} (p : α → Bool) (f : α → ℚ) (l : List α) :
    ∀ a : ℚ, l.foldl (fun t x => if p x then t + f x else t) a
      = a + ((l.filter p).map f).sum := by
  induction l with
  | nil => intro a; simp
  | cons x xs ih =>
    intro a
    cases h : p x <;> simp [h, ih, add_assoc]

/-- Claim C1: `calculateBudgetSnapshot` returns exactly the figures the spec
prescribes: summed flight cost with missing flights contributing 0, summed
assigned counts over existing flights, the selected accommodation's price or
0, the sum of extra costs, and the derived totals, guarded divisions and
over-assignment flag. -/
theorem calculateBudgetSnapshot_correct (input : SnapshotInput) :
    (calculateBudgetSnapshot input).flightCost
        = specFlightCost input.flights input.flightAssignments ∧
    (calculateBudgetSnapshot input).assignedPeopleCount
        = specAssignedPeopleCount input.flights input.flightAssignments ∧
    (calculateBudgetSnapshot input).accommodationCost
        = specAccommodationCost input.accommodations input.selectedAccommodationId ∧
    (calculateBudgetSnapshot input).extraCostsCost
        = (input.extraCosts.map ExtraCost.value).sum ∧
    (calculateBudgetSnapshot input).totalCost
        = (calculateBudgetSnapshot input).flightCost
          + (calculateBudgetSnapshot input).accommodationCost
          + (calculateBudgetSnapshot input).extraCostsCost ∧
    (calculateBudgetSnapshot input).remaining
        = input.settings.totalBudget - (calculateBudgetSnapshot input).totalCost ∧
    (calculateBudgetSnapshot input).perPersonTotal
        = (calculateBudgetSnapshot input).totalCost / max 1 input.settings.peopleCount ∧
    (calculateBudgetSnapshot input).perPersonRemaining
        = (calculateBudgetSnapshot input).remaining / max 1 input.settings.peopleCount ∧
    (calculateBudgetSnapshot input).isOverAssigned
        = decide ((calculateBudgetSnapshot input).assignedPeopleCount
            > input.settings.peopleCount) := by
  refine ⟨?_, ?_, rfl, ?_, rfl, rfl, rfl, rfl, rfl⟩
  · show input.flightAssignments.foldl
      (fun (total : ℚ) kv => total +
        (match input.flights.find? (fun item => item.id == kv.1) with
         | some flight => flight.pricePerPerson * kv.2
         | none => 0)) 0 = _
    rw [foldl_add_map (fun kv : String × ℚ =>
      (match input.flights.find? (fun item => item.id == kv.1) with
       | some flight => flight.pricePerPerson * kv.2
       | none => (0 : ℚ)))]
    simp [specFlightCost]
  · show input.flightAssignments.foldl
      (fun (total : ℚ) kv =>
        if input.flights.any (fun item => item.id == kv.1) then total + kv.2 else total) 0 = _
    rw [foldl_add_ite (fun kv : String × ℚ => input.flights.any (fun item => item.id == kv.1))
      (fun kv => kv.2)]
    simp [specAssignedPeopleCount]
  · show input.extraCosts.foldl (fun (total : ℚ) extraCost => total + extraCost.value) 0 = _
    rw [foldl_add_map (fun extraCost : ExtraCost => extraCost.value)]
    simp

theorem jsSet_append_of_not_any {β : Type} (l : List (String × β)) (k : String) (v : β)
    (h : l.any (fun p => p.1 == k) = false) : jsSet l k v = l ++ [(k, v)] := by
  simp [jsSet, h]

theorem mem_jsSet {β : Type} {l : List (String × β)} {k : String} {v : β} {kv : String × β}
    (h : kv ∈ jsSet l k v) : kv ∈ l ∨ kv = (k, v) := by
  unfold jsSet at h
  split at h
  · rcases List.mem_map.mp h with ⟨p, hp, he⟩
    by_cases hk : p.1 == k
    · right; rw [if_pos hk] at he; exact he.symm
    · left; rw [if_neg hk] at he; exact he ▸ hp
  · rcases List.mem_append.mp h with h1 | h1
    · exact Or.inl h1
    · right; exact List.mem_singleton.mp h1

theorem jsSet_keys_of_any {β : Type} (l : List (String × β)) (k : String) (v : β)
    (h : l.any (fun p => p.1 == k) = true) :
    (jsSet l k v).map Prod.fst = l.map Prod.fst := by
  simp only [jsSet, h, if_true, List.map_map]
  apply List.map_congr_left
  intro p _
  by_cases hk : p.1 == k
  · simp only [Function.comp, hk, if_pos]
    exact (eq_of_beq hk).symm
  · simp [Function.comp, hk]

theorem foldl_step_jsSet_eq_filter_map {α : Type}
    (step : List (String × ℚ) → α → List (String × ℚ))
    (p : α → Bool) (key : α → String) (val : α → ℚ)
    (hstep : ∀ acc x, step acc x = if p x then jsSet acc (key x) (val x) else acc)
    (l : List α) :
    ∀ acc : List (String × ℚ),
      (∀ x ∈ l, ∀ kw ∈ acc, key x ≠ kw.1) →
      (l.map key).Nodup →
      l.foldl step acc = acc ++ (l.filter p).map (fun x => (key x, val x)) := by
  induction l with
  | nil => intro acc _ _; simp
  | cons x xs ih =>
    intro acc hdisj hnd
    rw [List.map_cons, List.nodup_cons] at hnd
    rw [List.foldl_cons, hstep]
    cases hp : p x with
    | false =>
      rw [if_neg (by simp [hp])]
      rw [ih acc (fun y hy kw hkw => hdisj y (List.mem_cons_of_mem _ hy) kw hkw) hnd.2]
      simp [List.filter_cons, hp]
    | true =>
      rw [if_pos (by simp [hp])]
      have hnotin : acc.any (fun q => q.1 == key x) = false := by
        rw [List.any_eq_false]
        intro q hq
        have := hdisj x (List.mem_cons_self _ _) q hq
        simpa using fun hbeq => this (eq_of_beq hbeq).symm
      rw [jsSet_append_of_not_any _ _ _ hnotin]
      have hdisj2 : ∀ y ∈ xs, ∀ kw ∈ acc ++ [(key x, val x)], key y ≠ kw.1 := by
        intro y hy kw hkw
        rcases List.mem_append.mp hkw with h1 | h1
        · exact hdisj y (List.mem_cons_of_mem _ hy) kw h1
        · have hkw2 : kw = (key x, val x) := by simpa using h1
        -- key y ≠ key x since key x not among xs keys
          subst hkw2
          show key y ≠ key x
          intro hcontr
          exact hnd.1 (hcontr ▸ List.mem_map_of_mem key hy)
      rw [ih (acc ++ [(key x, val x)]) hdisj2 hnd.2]
      simp [List.filter_cons, hp]

theorem foldl_step_jsSet_filter {α : Type}
    (step : List (String × ℚ) → α → List (String × ℚ))
    (p : α → Bool) (key : α → String) (val : α → ℚ)
    (hstep : ∀ acc x, step acc x = if p x then jsSet acc (key x) (val x) else acc)
    (l : List α) (hnd : (l.map key).Nodup) :
    l.foldl step [] = (l.filter p).map (fun x => (key x, val x)) := by
  simpa using foldl_step_jsSet_eq_filter_map step p key val hstep l [] (by simp) hnd

theorem foldl_step_jsSet_mem {α : Type}
    (step : List (String × ℚ) → α → List (String × ℚ))
    (p : α → Bool) (key : α → String) (val : α → ℚ)
    (hstep : ∀ acc x, step acc x = if p x then jsSet acc (key x) (val x) else acc)
    (Q : String × ℚ → Prop) (hQ : ∀ x, p x = true → Q (key x, val x)) (l : List α) :
    ∀ acc, (∀ kv ∈ acc, Q kv) → ∀ kv ∈ l.foldl step acc, Q kv := by
  induction l with
  | nil => intro acc hacc kv hkv; exact hacc kv (by simpa using hkv)
  | cons x xs ih =>
    intro acc hacc kv hkv
    rw [List.foldl_cons, hstep] at hkv
    cases hp : p x with
    | false =>
      rw [if_neg (by simp [hp])] at hkv
      exact ih acc hacc kv hkv
    | true =>
      rw [if_pos (by simp [hp])] at hkv
      refine ih (jsSet acc (key x) (val x)) ?_ kv hkv
      intro kw hkw
      rcases mem_jsSet hkw with h1 | h1
      · exact hacc kw h1
      · exact h1 ▸ hQ x hp

theorem foldl_step_jsSet_nodupkeys {α : Type}
    (step : List (String × ℚ) → α → List (String × ℚ))
    (p : α → Bool) (key : α → String) (val : α → ℚ)
    (hstep : ∀ acc x, step acc x = if p x then jsSet acc (key x) (val x) else acc)
    (l : List α) :
    ∀ acc, ((acc.map Prod.fst).Nodup) → (((l.foldl step acc).map Prod.fst).Nodup) := by
  induction l with
  | nil => intro acc h; simpa using h
  | cons x xs ih =>
    intro acc h
    rw [List.foldl_cons, hstep]
    cases hp : p x with
    | false =>
      rw [if_neg (by simp [hp])]
      exact ih acc h
    | true =>
      rw [if_pos (by simp [hp])]
      refine ih _ ?_
      by_cases hany : acc.any (fun q => q.1 == key x)
      · rw [jsSet_keys_of_any _ _ _ hany]; exact h
      · rw [jsSet_append_of_not_any _ _ _ (by simp only [Bool.not_eq_true] at hany; exact hany)]
        rw [List.map_append, List.nodup_append]
        refine ⟨h, by simp, ?_⟩
        intro a ha hamem
        have ha2 : a = key x := by simpa using hamem
        rcases List.mem_map.mp ha with ⟨q, hq, hqa⟩
        simp only [Bool.not_eq_true] at hany
        have hfalse := List.any_eq_false.mp hany q hq
        apply hfalse
        rw [beq_iff_eq, hqa, ha2]

theorem foldl_contains_filter (ids : List String) (l : List (String × ℚ))
    (hnd : (l.map Prod.fst).Nodup) :
    l.foldl (fun acc kv => if ids.contains kv.1 then jsSet acc kv.1 kv.2 else acc) []
      = l.filter (fun kv => ids.contains kv.1) := by
  have h := foldl_step_jsSet_filter
    (fun acc kv => if ids.contains kv.1 then jsSet acc kv.1 kv.2 else acc)
    (fun kv => ids.contains kv.1) Prod.fst Prod.snd (fun acc x => rfl) l hnd
  rw [h]
  simp

/-- The per-attempt rewrite of claim C2: assignments pruned to the surviving
flight ids and the frozen cost fields recomputed by the budget calculator on
the new flights, the current accommodations and extra costs, the pruned
assignments and the attempt's accommodation selection. -/
def specAttemptAfterFlightsChange (settings : PlannerSettings) (flights : List Flight)
    (d : Destination) (a : BudgetAttempt) : BudgetAttempt :=
  let filtered := a.flightAssignments.filter
    (fun kv => (flights.map (fun flight => flight.id)).contains kv.1)
  let snap := calculateBudgetSnapshot
    { flights
      accommodations := d.accommodations
      flightAssignments := filtered
      selectedAccommodationId := a.selectedAccommodationId
      extraCosts := d.extraCosts
      settings }
  { a with
      flightAssignments := filtered
      totalCost := snap.totalCost
      remaining := snap.remaining
      perPersonTotal := snap.perPersonTotal }

/-- Claim C2: on a flights replacement the reconciler restricts the live
assignment map to the keys whose flight id survives, restricts the stored
attempt's assignments the same way, and recomputes that attempt's frozen
`totalCost`, `remaining` and `perPersonTotal` with the budget calculator on
the new flights and the filtered assignments. Key maps are assumed
duplicate-free (JS objects cannot hold duplicate keys) and the destination
carries at most one attempt (the single-slot invariant). -/
theorem handleFlightsChange_correct (settings : PlannerSettings) (flights : List Flight)
    (d : Destination)
    (hlive : (d.budgetEstimator.flightAssignments.map Prod.fst).Nodup)
    (hatt : ∀ a ∈ d.budgetEstimator.attempts, (a.flightAssignments.map Prod.fst).Nodup)
    (hone : d.budgetEstimator.attempts.length ≤ 1) :
    (handleFlightsChange settings flights d).flights = flights ∧
    (handleFlightsChange settings flights d).budgetEstimator.flightAssignments
      = d.budgetEstimator.flightAssignments.filter
          (fun kv => (flights.map (fun flight => flight.id)).contains kv.1) ∧
    (handleFlightsChange settings flights d).budgetEstimator.attempts
      = d.budgetEstimator.attempts.map (specAttemptAfterFlightsChange settings flights d) := by
  refine ⟨rfl, ?_, ?_⟩
  · show d.budgetEstimator.flightAssignments.foldl
      (fun acc kv => if (flights.map (fun flight => flight.id)).contains kv.1
        then jsSet acc kv.1 kv.2 else acc) [] = _
    exact foldl_contains_filter _ _ hlive
  · show (d.budgetEstimator.attempts.take 1).map _ = _
    rw [List.take_of_length_le hone]
    apply List.map_congr_left
    intro a ha
    show BudgetAttempt.mk _ _ _ _ _ _ _ _ = _
    rw [foldl_contains_filter _ _ (hatt a ha)]
    rfl

/-- Witness for claim C2 at a concrete destination: one flight `f2` removed,
assignments `f1 -> 2, f2 -> 1` pruned to `f1 -> 2` both live and inside the
stored attempt, whose totals get recomputed. -/
theorem handleFlightsChange_correct_witness :
    ((⟨[("f1", 2), ("f2", 1)], "", "a1",
        [⟨"a1", "Saved baseline", 5, [("f1", 2), ("f2", 1)], "", 700, -700, 140⟩]⟩ :
        BudgetEstimatorState).flightAssignments.map Prod.fst).Nodup ∧
    (handleFlightsChange ⟨1000, 5⟩ [⟨"f1", "", "", "", "", 100⟩]
      ⟨"d1", "Rome", 1, 2, "", [],
        ⟨[("f1", 2), ("f2", 1)], "", "a1",
          [⟨"a1", "Saved baseline", 5, [("f1", 2), ("f2", 1)], "", 700, -700, 140⟩]⟩,
        {}, {}, [⟨"f1", "", "", "", "", 100⟩, ⟨"f2", "", "", "", "", 500⟩],
        []⟩).budgetEstimator.flightAssignments = [("f1", 2)] := by
  have h := handleFlightsChange_correct ⟨1000, 5⟩ [⟨"f1", "", "", "", "", 100⟩]
    ⟨"d1", "Rome", 1, 2, "", [],
      ⟨[("f1", 2), ("f2", 1)], "", "a1",
        [⟨"a1", "Saved baseline", 5, [("f1", 2), ("f2", 1)], "", 700, -700, 140⟩]⟩,
      {}, {}, [⟨"f1", "", "", "", "", 100⟩, ⟨"f2", "", "", "", "", 500⟩],
      []⟩
    (by decide) (by decide) (by decide)
  refine ⟨by decide, ?_⟩
  rw [h.2.1]
  decide

/-- The `fixedAttemptId` stored in an unknown budget-estimator input. -/
def storedFixedAttemptId (v : Value) : String :=
  match getFieldOpt v "fixedAttemptId" with
  | .vStr s => s
  | _ => ""

theorem estimator_core (as : List BudgetAttempt) (fid : String) :
    (match (as.find? (fun a => a.id == fid)).orElse (fun _ => as.head?) with
      | some a => [a]
      | none => ([] : List BudgetAttempt))
    = (match as.find? (fun a => a.id == fid) with
       | some a => [a]
       | none => as.take 1) := by
  cases hfind : as.find? (fun a => a.id == fid) with
  | some a => simp [Option.orElse]
  | none => cases as <;> simp [Option.orElse]

/-- Claim C5: for every input the budget-estimator normalizer returns at most
one attempt: the one matching the stored `fixedAttemptId` when present, else
the first surviving attempt, else none; and the returned `fixedAttemptId`
equals the surviving attempt's id, or `''` when no attempt survives. -/
theorem normalizeBudgetEstimator_single (env : ImpureEnv) (v : Value) :
    (normalizeBudgetEstimator env v).attempts.length ≤ 1 ∧
    (normalizeBudgetEstimator env v).attempts
      = (match (normalizeBudgetAttempts env (getFieldOpt v "attempts")).find?
            (fun a => a.id == storedFixedAttemptId v) with
         | some a => [a]
         | none => (normalizeBudgetAttempts env (getFieldOpt v "attempts")).take 1) ∧
    (normalizeBudgetEstimator env v).fixedAttemptId
      = (match (normalizeBudgetEstimator env v).attempts.head? with
         | some a => a.id
         | none => "") := by
  have hatt : (normalizeBudgetEstimator env v).attempts
      = match ((normalizeBudgetAttempts env (getFieldOpt v "attempts")).find?
            (fun a => a.id == storedFixedAttemptId v)).orElse
          (fun _ => (normalizeBudgetAttempts env (getFieldOpt v "attempts")).head?) with
        | some a => [a]
        | none => [] := rfl
  have hfix : (normalizeBudgetEstimator env v).fixedAttemptId
      = match (normalizeBudgetEstimator env v).attempts.head? with
        | some a => if a.id == "" then "" else a.id
        | none => "" := rfl
  refine ⟨?_, ?_, ?_⟩
  · rw [hatt]
    cases ((normalizeBudgetAttempts env (getFieldOpt v "attempts")).find?
        (fun a => a.id == storedFixedAttemptId v)).orElse
      (fun _ => (normalizeBudgetAttempts env (getFieldOpt v "attempts")).head?) <;> simp
  · rw [hatt, estimator_core]
  · rw [hfix]
    cases (normalizeBudgetEstimator env v).attempts.head? with
    | none => rfl
    | some a =>
      by_cases ha : a.id == ""
      · simp only [ha, if_true]
        exact (eq_of_beq ha).symm
      · simp [ha]

/-- Keep-condition of one assignment entry (`typeof count === 'number' &&
Number.isFinite(count) && count >= 0`). -/
def assignKeep (v : Value) : Bool :=
  match v with
  | .vNum q => decide (0 ≤ q)
  | _ => false

/-- Stored value of a kept assignment entry (`Math.floor(count)`). -/
def assignVal (v : Value) : ℚ :=
  match v with
  | .vNum q => ((⌊q⌋ : ℤ) : ℚ)
  | _ => 0

theorem assignStep_eq (acc : List (String × ℚ)) (kv : String × Value) :
    assignStep acc kv = if assignKeep kv.2 then jsSet acc kv.1 (assignVal kv.2) else acc := by
  rcases kv with ⟨k, v⟩
  cases v <;> simp [assignStep, assignKeep, assignVal]

theorem normalizeFlightAssignments_entries (v : Value) :
    ∀ kv ∈ normalizeFlightAssignments v, 0 ≤ kv.2 ∧ ((⌊kv.2⌋ : ℤ) : ℚ) = kv.2 := by
  intro kv hkv
  match v with
  | .vObj fields =>
      refine foldl_step_jsSet_mem assignStep (fun kv => assignKeep kv.2) Prod.fst
        (fun kv => assignVal kv.2) (fun acc x => assignStep_eq acc x)
        (fun kv => 0 ≤ kv.2 ∧ ((⌊kv.2⌋ : ℤ) : ℚ) = kv.2) ?_ fields [] (by simp) kv hkv
      intro x hx
      rcases x with ⟨k, w⟩
      cases w <;> simp [assignKeep, assignVal] at hx ⊢
      exact Int.floor_nonneg.mpr hx
  | .vNull => simp [normalizeFlightAssignments] at hkv
  | .vBool b => simp [normalizeFlightAssignments] at hkv
  | .vNum q => simp [normalizeFlightAssignments] at hkv
  | .vNaN => simp [normalizeFlightAssignments] at hkv
  | .vStr s => simp [normalizeFlightAssignments] at hkv
  | .vArr elems => simp [normalizeFlightAssignments] at hkv

/-- Counterexample to claim C6: the FlightAssignments normalizer keeps a
zero-valued entry instead of representing the zero count by key absence. -/
theorem normalizeFlightAssignments_zero_entry :
    ("f1", (0 : ℚ)) ∈ normalizeFlightAssignments (.vObj [("f1", .vNum 0)]) := by
  decide

/-- Amended claim C6: the assignment-change operation keeps the canonical
form: on a zero-free map the result is zero-free, and setting a count of 0
removes the key. The FlightAssignments normalizer, however, does not enforce
key absence for zeros: on arbitrary input it only guarantees that every kept
entry is a floored non-negative integer, zero values included. -/
theorem handleAssignmentChange_canonical (m : List (String × ℚ)) (flightId : String)
    (count : ℚ) (h : ∀ kv ∈ m, kv.2 ≠ 0) :
    (∀ kv ∈ handleAssignmentChange m flightId count, kv.2 ≠ 0) ∧
    (count = 0 → ∀ kv ∈ handleAssignmentChange m flightId count, kv.1 ≠ flightId) ∧
    (∀ v : Value, ∀ kv ∈ normalizeFlightAssignments v,
      0 ≤ kv.2 ∧ ((⌊kv.2⌋ : ℤ) : ℚ) = kv.2) := by
  refine ⟨?_, ?_, fun v => normalizeFlightAssignments_entries v⟩
  · intro kv hkv
    unfold handleAssignmentChange at hkv
    by_cases hneg : count < 0
    · rw [if_pos hneg] at hkv
      exact h kv hkv
    · rw [if_neg hneg] at hkv
      by_cases hzero : count = 0
      · rw [if_pos hzero] at hkv
        exact h kv (List.mem_of_mem_filter hkv)
      · rw [if_neg hzero] at hkv
        rcases mem_jsSet hkv with h1 | h1
        · exact h kv h1
        · rw [h1]
          exact hzero
  · intro hzero kv hkv
    unfold handleAssignmentChange at hkv
    rw [hzero] at hkv
    rw [if_neg (lt_irrefl 0), if_pos rfl] at hkv
    have := List.of_mem_filter hkv
    simpa using this

/-- Witness for the amended claim C6 at a concrete map: setting `f1` to 0 on
the zero-free map `f1 -> 2` leaves no entry keyed `f1`. -/
theorem handleAssignmentChange_canonical_witness :
    (∀ kv ∈ ([("f1", (2 : ℚ))] : List (String × ℚ)), kv.2 ≠ 0) ∧
    (∀ kv ∈ handleAssignmentChange [("f1", 2)] "f1" 0, kv.1 ≠ "f1") := by
  have h := handleAssignmentChange_canonical [("f1", 2)] "f1" 0 (by decide)
  exact ⟨by decide, h.2.1 rfl⟩

/-- Claim C10: when a saved baseline exists, the override-with-current
operation yields exactly one attempt carrying the previous saved attempt's
id with only name, createdAt, assignments, accommodation selection and the
cost fields replaced, and `fixedAttemptId` ends up equal to that id, so the
single-slot invariant survives the override. -/
theorem replaceSavedWithCurrent_keeps_id (e : BudgetEstimatorState)
    (snapshot : BudgetSnapshot) (now : ℚ) (a : BudgetAttempt)
    (h : savedAttemptOf e.attempts e.fixedAttemptId = some a) :
    (replaceSavedWithCurrent e snapshot now).attempts
      = [{ a with
            name := "Saved baseline"
            createdAt := now
            flightAssignments := e.flightAssignments
            selectedAccommodationId := e.selectedAccommodationId
            totalCost := snapshot.totalCost
            remaining := snapshot.remaining
            perPersonTotal := snapshot.perPersonTotal }] ∧
    (replaceSavedWithCurrent e snapshot now).fixedAttemptId = a.id := by
  unfold replaceSavedWithCurrent
  rw [h]
  refine ⟨rfl, ?_⟩
  by_cases ha : a.id = ""
  · show (if _ ∧ _ then _ else "") = a.id
    rw [if_neg]
    · exact ha.symm
    · rintro ⟨hne, _⟩
      exact hne ha
  · show (if _ ∧ _ then _ else "") = a.id
    rw [if_pos ⟨ha, by simp [handleAttemptsChange]⟩]

/-- Witness for claim C10 at a concrete estimator holding one saved attempt
with id `base`. -/
theorem replaceSavedWithCurrent_keeps_id_witness :
    savedAttemptOf [⟨"base", "old", 1, [("f2", 1)], "", 9, 9, 9⟩] "base"
      = some ⟨"base", "old", 1, [("f2", 1)], "", 9, 9, 9⟩ ∧
    (replaceSavedWithCurrent
      ⟨[("f1", 2)], "acc1", "base", [⟨"base", "old", 1, [("f2", 1)], "", 9, 9, 9⟩]⟩
      ⟨3, 300, 500, 50, 850, 150, 170, 30, false⟩ 42).fixedAttemptId = "base" := by
  have h := replaceSavedWithCurrent_keeps_id
    ⟨[("f1", 2)], "acc1", "base", [⟨"base", "old", 1, [("f2", 1)], "", 9, 9, 9⟩]⟩
    ⟨3, 300, 500, 50, 850, 150, 170, 30, false⟩ 42
    ⟨"base", "old", 1, [("f2", 1)], "", 9, 9, 9⟩ (by decide)
  exact ⟨by decide, h.2⟩

/-- Claim C8: when the remote's `meta.updatedAt` is strictly newer than the
last-known-remote timestamp for the code, a push asks for confirmation, it
writes exactly when the user confirms, and a declined push leaves the remote
document and both sync markers untouched. -/
theorem handlePushToTrip_stale_confirm (tripCode : String) (st : PushState)
    (dsPayload stPayload : Value) (now t : ℚ) (clientId : String)
    (hcode : TRIP_CODE_MIN_LENGTH ≤ (normalizeTripCode tripCode).length)
    (hremote : (match st.remote with
      | some remotePayload =>
          parseTimestamp (getFieldOpt (getFieldOpt remotePayload "meta") "updatedAt")
      | none => none) = some t)
    (hstale : (jsGet? st.lastKnownRemoteByCode (normalizeTripCode tripCode)).getD 0 < t) :
    (∀ confirmResponse,
      (handlePushToTrip true tripCode st dsPayload stPayload confirmResponse now
        clientId).confirmationRequested = true ∧
      (handlePushToTrip true tripCode st dsPayload stPayload confirmResponse now
        clientId).wrote = confirmResponse) ∧
    (handlePushToTrip true tripCode st dsPayload stPayload false now clientId).remote
      = st.remote ∧
    (handlePushToTrip true tripCode st dsPayload stPayload false now
      clientId).lastKnownRemoteByCode = st.lastKnownRemoteByCode ∧
    (handlePushToTrip true tripCode st dsPayload stPayload false now
      clientId).lastLocalPushByCode = st.lastLocalPushByCode := by
  have hmain : ∀ cr, handlePushToTrip true tripCode st dsPayload stPayload cr now clientId
      = if cr = false
        then
          { remote := st.remote
            lastKnownRemoteByCode := st.lastKnownRemoteByCode
            lastLocalPushByCode := st.lastLocalPushByCode
            confirmationRequested := true
            wrote := false
            statusKind := .warning }
        else
          { remote := some (.vObj
              [("destinations", dsPayload),
               ("settings", stPayload),
               ("meta", .vObj [("updatedAt", .vNum now), ("updatedBy", .vStr clientId)])])
            lastKnownRemoteByCode := jsSet st.lastKnownRemoteByCode
              (normalizeTripCode tripCode) now
            lastLocalPushByCode := jsSet st.lastLocalPushByCode
              (normalizeTripCode tripCode) now
            confirmationRequested := true
            wrote := true
            statusKind := .success } := by
    intro cr
    simp only [handlePushToTrip, Bool.not_true, Bool.false_eq_true, if_false, hremote,
      if_neg (not_lt.mpr hcode), decide_eq_true_eq, hstale, true_and, decide_True]
  refine ⟨?_, ?_, ?_, ?_⟩
  · intro cr
    rw [hmain cr]
    cases cr <;> simp
  · rw [hmain false]; rfl
  · rw [hmain false]; rfl
  · rw [hmain false]; rfl

/-- Witness for claim C8: remote updated at 100, last-known 50, so the push
is stale; declining leaves the known-remote marker (and everything else)
unchanged. -/
theorem handlePushToTrip_stale_confirm_witness :
    TRIP_CODE_MIN_LENGTH ≤ (normalizeTripCode "trip").length ∧
    (handlePushToTrip true "trip"
      ⟨some (.vObj [("meta", .vObj [("updatedAt", .vNum 100)])]), [("TRIP", 50)], []⟩
      (.vArr []) (.vObj []) false 200 "client-1").confirmationRequested = true ∧
    (handlePushToTrip true "trip"
      ⟨some (.vObj [("meta", .vObj [("updatedAt", .vNum 100)])]), [("TRIP", 50)], []⟩
      (.vArr []) (.vObj []) false 200 "client-1").wrote = false ∧
    (handlePushToTrip true "trip"
      ⟨some (.vObj [("meta", .vObj [("updatedAt", .vNum 100)])]), [("TRIP", 50)], []⟩
      (.vArr []) (.vObj []) false 200 "client-1").lastKnownRemoteByCode = [("TRIP", 50)] := by
  have h := handlePushToTrip_stale_confirm "trip"
    ⟨some (.vObj [("meta", .vObj [("updatedAt", .vNum 100)])]), [("TRIP", 50)], []⟩
    (.vArr []) (.vObj []) 200 100 "client-1" (by decide) (by decide) (by decide)
  exact ⟨by decide, (h.1 false).1, (h.1 false).2, h.2.2.1⟩

/-- Counterexample to claim C3: an element whose price field fails numeric
coercion is kept with a price of 0, not dropped as a whole record. -/
theorem normalizeFlightList_keeps_bad_price :
    normalizeFlightList (.vArr [.vObj [("id", .vStr "f1"), ("pricePerPerson", .vStr "abc")]])
      = [⟨"f1", "", "", "", "", 0⟩] := by
  decide

theorem reduceOption_map_ite {α : Type} (p : Value → Bool) (g : Value → α) (l : List Value) :
    (l.map (fun e => if p e then some (g e) else none)).reduceOption = (l.filter p).map g := by
  induction l with
  | nil => rfl
  | cons e rest ih => cases hp : p e <;> simp [hp, ih]

theorem flightElem_eq (e : Value) :
    (match e with
     | .vObj fields =>
         match jsValueAt fields "id" with
         | .vStr id =>
             if jsTrim id == "" then none
             else some
               { id
                 link := stringFieldOr fields "link"
                 description := stringFieldOr fields "description"
                 startDate := stringFieldOr fields "startDate"
                 endDate := stringFieldOr fields "endDate"
                 pricePerPerson := coercedPrice fields "pricePerPerson" }
         | _ => none
     | _ => (none : Option Flight))
    = if keepsListedRecord e then some (specRepairFlight e) else none := by
  cases e <;> simp only [keepsListedRecord, specRepairFlight]
  case vObj fields =>
    cases h : jsValueAt fields "id" <;> simp only [h]
    case vStr id =>
      cases htrim : (jsTrim id == "") <;> simp [htrim]
    all_goals simp
  all_goals simp

theorem accommodationElem_eq (e : Value) :
    (match e with
     | .vObj fields =>
         match jsValueAt fields "id" with
         | .vStr id =>
             if jsTrim id == "" then none
             else some
               { id
                 link := stringFieldOr fields "link"
                 description := stringFieldOr fields "description"
                 startDate := stringFieldOr fields "startDate"
                 endDate := stringFieldOr fields "endDate"
                 totalPrice := coercedPrice fields "totalPrice" }
         | _ => none
     | _ => (none : Option Accommodation))
    = if keepsListedRecord e then some (specRepairAccommodation e) else none := by
  cases e <;> simp only [keepsListedRecord, specRepairAccommodation]
  case vObj fields =>
    cases h : jsValueAt fields "id" <;> simp only [h]
    case vStr id =>
      cases htrim : (jsTrim id == "") <;> simp [htrim]
    all_goals simp
  all_goals simp

/-- Amended claim C3: the flight and accommodation list normalizers drop
exactly the elements that are not objects carrying a non-blank string id;
the price field of a surviving record is coerced (string-encoded numbers
included) and accepted when it parses to a finite number at least 0, and
otherwise the price is replaced by 0 while the record is kept. -/
theorem normalizeLists_amended (v : Value) :
    normalizeFlightList v = specFlightList v ∧
    normalizeAccommodationList v = specAccommodationList v := by
  cases v <;> try exact ⟨rfl, rfl⟩
  case vArr elems =>
    constructor
    · show (elems.map _).reduceOption = _
      rw [List.map_congr_left (fun e _ => flightElem_eq e)]
      rw [reduceOption_map_ite keepsListedRecord specRepairFlight]
      rfl
    · show (elems.map _).reduceOption = _
      rw [List.map_congr_left (fun e _ => accommodationElem_eq e)]
      rw [reduceOption_map_ite keepsListedRecord specRepairAccommodation]
      rfl

/-- Counterexample to claim C9: the scalar number 0 is not upgraded to a
one-element list carrying value 0; the normalizer returns the empty list
(the upgrade is guarded by `extraCosts > 0`). -/
theorem normalizeExtraCosts_scalar_zero :
    normalizeExtraCosts (.vNum 0) = .ok [] ∧
    normalizeExtraCosts (.vNum 0)
      ≠ .ok [{ description := "General extra cost", value := 0 }] := by
  constructor
  · rfl
  · rw [show normalizeExtraCosts (.vNum 0) = Except.ok [] from rfl]
    simp

theorem normExtraCostElem_ok (e : Value) (h : isVNull e = false) :
    normExtraCostElem e = .ok (specRepairExtraCost e) := by
  cases e <;> try rfl
  · simp [isVNull] at h
  case vObj fields =>
    cases hd : jsValueAt fields "description" <;> cases hv : jsValueAt fields "value" <;>
      simp [normExtraCostElem, specRepairExtraCost, jsGetProp, hd, hv]

theorem mapM_extraCost_error (elems : List Value) (e : Value) (he : e ∈ elems)
    (hve : isVNull e = true) : elems.mapM normExtraCostElem = .error () := by
  induction elems with
  | nil => cases he
  | cons x rest ih =>
    rw [List.mapM_cons]
    rcases List.mem_cons.mp he with h1 | h1
    · subst h1
      cases e <;> simp [isVNull] at hve
      rfl
    · cases hx : normExtraCostElem x with
      | error u => rfl
      | ok c =>
        show (rest.mapM normExtraCostElem).bind _ = _
        rw [ih h1]
        rfl

theorem mapM_extraCost_ok (elems : List Value) (h : ∀ e ∈ elems, isVNull e = false) :
    elems.mapM normExtraCostElem = .ok (elems.map specRepairExtraCost) := by
  induction elems with
  | nil => rfl
  | cons x rest ih =>
    rw [List.mapM_cons]
    show (normExtraCostElem x).bind _ = _
    rw [normExtraCostElem_ok x (h x (List.mem_cons_self _ _))]
    show (rest.mapM normExtraCostElem).bind _ = _
    rw [ih (fun e he => h e (List.mem_cons_of_mem _ he))]
    rfl

/-- Amended claim C9: a finite scalar number strictly greater than 0 becomes
the one-element list with the generic description, any other scalar number
the empty list; an array throws exactly when it contains a `null` or
`undefined` element, and is otherwise repaired per element (non-string
description to `''`, malformed or negative value to 0) and then stripped of
elements with a blank description and zero value; any other input yields the
empty list. -/
theorem normalizeExtraCosts_amended (v : Value) :
    normalizeExtraCosts v
      = match v with
        | .vNum q =>
            .ok (if 0 < q then [{ description := "General extra cost", value := q }] else [])
        | .vNaN => .ok []
        | .vArr elems =>
            if elems.any isVNull then .error ()
            else .ok ((elems.map specRepairExtraCost).filter
              (fun c => !(jsTrim c.description == "") || decide (0 < c.value)))
        | _ => .ok [] := by
  cases v <;> try rfl
  case vArr elems =>
    show (elems.mapM normExtraCostElem).map _
        = if elems.any isVNull = true then Except.error ()
          else Except.ok ((elems.map specRepairExtraCost).filter
            (fun c => !(jsTrim c.description == "") || decide (0 < c.value)))
    cases hany : elems.any isVNull with
    | true =>
      rcases List.any_eq_true.mp hany with ⟨e, he, hve⟩
      rw [mapM_extraCost_error elems e he hve]
      rfl
    | false =>
      have hall : ∀ e ∈ elems, isVNull e = false := by
        intro e he
        have h2 := List.any_eq_false.mp hany e he
        simpa using h2
      rw [mapM_extraCost_ok elems hall]
      rfl

theorem mapM_candidates_none (env : ImpureEnv) (elems : List Value)
    (h : ∀ e ∈ elems, normalizeDestinationCandidate env e = .ok none) :
    elems.mapM (normalizeDestinationCandidate env)
      = .ok (elems.map (fun _ => (none : Option Destination))) := by
  induction elems with
  | nil => rfl
  | cons x rest ih =>
    rw [List.mapM_cons]
    show (normalizeDestinationCandidate env x).bind _ = _
    rw [h x (List.mem_cons_self _ _)]
    show (rest.mapM (normalizeDestinationCandidate env)).bind _ = _
    rw [ih (fun e he => h e (List.mem_cons_of_mem _ he))]
    rfl

theorem reduceOption_all_none {α β : Type} (l : List α) :
    (l.map (fun _ => (none : Option β))).reduceOption = [] := by
  induction l with
  | nil => rfl
  | cons x rest ih => simpa using ih

theorem reduceOption_replicate_none {β : Type} (n : ℕ) :
    (List.replicate n (none : Option β)).reduceOption = [] := by
  induction n with
  | zero => rfl
  | succ n ih => simpa using ih

/-- Claim C4: a payload whose `destinations` field is a non-empty array in
which every element is rejected by per-destination normalization is itself
rejected (`null`), and a payload whose `destinations` field is not an array
is rejected as well. -/
theorem parseTripSyncPayload_fail_closed (env : ImpureEnv) (fb : PlannerSettings)
    (fields : List (String × Value)) :
    (∀ elems, jsValueAt fields "destinations" = .vArr elems → elems ≠ [] →
      (∀ e ∈ elems, normalizeDestinationCandidate env e = .ok none) →
      parseTripSyncPayload env (.vObj fields) fb = .ok none) ∧
    ((∀ elems, jsValueAt fields "destinations" ≠ .vArr elems) →
      parseTripSyncPayload env (.vObj fields) fb = .ok none) := by
  constructor
  · intro elems hdest hne hall
    simp only [parseTripSyncPayload]
    rw [hdest]
    show (elems.mapM (normalizeDestinationCandidate env)).map _ = Except.ok none
    rw [mapM_candidates_none env elems hall]
    show Except.ok _ = Except.ok none
    rw [Except.ok.injEq]
    simp [reduceOption_all_none, reduceOption_replicate_none, List.length_pos.mpr hne]
  · intro hne
    cases hd : jsValueAt fields "destinations"
    case vArr elems => exact absurd hd (hne elems)
    all_goals simp only [parseTripSyncPayload, hd]

/-- A concrete impure environment for the witnesses: time 0 and a fixed
non-blank generated id. -/
def testEnv : ImpureEnv :=
  ⟨0, fun _ => "gen", fun _ => by show jsTrim "gen" ≠ ""; decide⟩

/-- Witness for claim C4 at the spec's own example: `destinations` a one
element array holding only a bogus record is rejected wholesale. -/
theorem parseTripSyncPayload_fail_closed_witness :
    ([Value.vObj [("bogus", .vBool true)]] ≠ ([] : List Value)) ∧
    parseTripSyncPayload testEnv
      (.vObj [("destinations", .vArr [.vObj [("bogus", .vBool true)]])])
      ⟨5000, 5⟩ = .ok none := by
  refine ⟨by simp, ?_⟩
  exact (parseTripSyncPayload_fail_closed testEnv ⟨5000, 5⟩
      [("destinations", .vArr [.vObj [("bogus", .vBool true)]])]).1
    [Value.vObj [("bogus", .vBool true)]] rfl (by simp)
    (fun e he => by
      rw [List.mem_singleton.mp he]
      rfl)

/-- Well-formedness of a normalized flight-assignment map: duplicate-free
keys and floored non-negative counts. -/
def WFAssignments (m : List (String × ℚ)) : Prop :=
  (m.map Prod.fst).Nodup ∧ ∀ kv ∈ m, 0 ≤ kv.2 ∧ ((⌊kv.2⌋ : ℤ) : ℚ) = kv.2

/-- Well-formedness of a normalized extra-cost list. -/
def WFExtraCosts (l : List ExtraCost) : Prop :=
  ∀ c ∈ l, 0 ≤ c.value ∧ ((jsTrim c.description == "") = false ∨ 0 < c.value)

/-- Well-formedness of a normalized budget attempt. -/
def WFAttempt (a : BudgetAttempt) : Prop :=
  (jsTrim a.id == "") = false ∧ (jsTrim a.name == "") = false ∧
  WFAssignments a.flightAssignments

/-- Well-formedness of a normalized budget-estimator state. -/
def WFEstimator (e : BudgetEstimatorState) : Prop :=
  WFAssignments e.flightAssignments ∧ (∀ a ∈ e.attempts, WFAttempt a) ∧
  e.attempts.length ≤ 1 ∧
  e.fixedAttemptId = (match e.attempts.head? with | some a => a.id | none => "")

/-- Well-formedness of normalized planner settings: the spec invariants
`totalBudget >= 0` and `peopleCount` a positive integer. -/
def WFSettings (s : PlannerSettings) : Prop :=
  0 ≤ s.totalBudget ∧ 0 < s.peopleCount ∧ ((⌊s.peopleCount⌋ : ℤ) : ℚ) = s.peopleCount

theorem normalizeFlightAssignments_WF (v : Value) :
    WFAssignments (normalizeFlightAssignments v) := by
  constructor
  · match v with
    | .vObj fields =>
        exact foldl_step_jsSet_nodupkeys assignStep (fun kv => assignKeep kv.2) Prod.fst
          (fun kv => assignVal kv.2) assignStep_eq fields [] (by simp)
    | .vNull | .vBool _ | .vNum _ | .vNaN | .vStr _ | .vArr _ => simp [normalizeFlightAssignments]
  · exact normalizeFlightAssignments_entries v

theorem normalizeFlightAssignments_roundtrip (m : List (String × ℚ)) (h : WFAssignments m) :
    normalizeFlightAssignments (assignmentsToValue m) = m := by
  show (m.map (fun kv => (kv.1, Value.vNum kv.2))).foldl assignStep [] = m
  rw [foldl_step_jsSet_filter assignStep (fun kv => assignKeep kv.2) Prod.fst
      (fun kv => assignVal kv.2) assignStep_eq _
      (by rw [List.map_map]; exact h.1)]
  have core : ∀ (l : List (String × ℚ)),
      (∀ kv ∈ l, 0 ≤ kv.2 ∧ ((⌊kv.2⌋ : ℤ) : ℚ) = kv.2) →
      ((l.map (fun kv => (kv.1, Value.vNum kv.2))).filter
          (fun kv => assignKeep kv.2)).map (fun kv => (kv.1, assignVal kv.2)) = l := by
    intro l
    induction l with
    | nil => intro _; rfl
    | cons kv rest ih =>
      intro hl
      obtain ⟨h1, h2⟩ := hl kv (List.mem_cons_self _ _)
      have hkeep : assignKeep (Value.vNum kv.2) = true := by
        simp [assignKeep, h1]
      simp only [List.map_cons, List.filter_cons, hkeep, if_true]
      rw [ih (fun x hx => hl x (List.mem_cons_of_mem _ hx))]
      show (kv.1, assignVal (Value.vNum kv.2)) :: rest = _
      rw [show assignVal (Value.vNum kv.2) = ((⌊kv.2⌋ : ℤ) : ℚ) from rfl, h2]
  exact core m h.2

theorem except_bind_ok {ε α β : Type} (a : α) (f : α → Except ε β) :
    (Except.ok a >>= f) = f a := rfl

theorem except_bind_er {ε α β : Type} (u : ε) (f : α → Except ε β) :
    ((Except.error u : Except ε α) >>= f) = Except.error u := rfl

theorem except_pure_eq {ε α : Type} (a : α) : (pure a : Except ε α) = Except.ok a := rfl

theorem normExtraCostElem_value_nonneg (e : Value) (c : ExtraCost)
    (h : normExtraCostElem e = .ok c) : 0 ≤ c.value := by
  unfold normExtraCostElem at h
  cases hd : jsGetProp e "description" with
  | none => rw [hd] at h; exact Except.noConfusion h
  | some d =>
    cases hv : jsGetProp e "value" with
    | none => rw [hd, hv] at h; exact Except.noConfusion h
    | some v =>
      rw [hd, hv, Except.ok.injEq] at h
      subst h
      cases v <;> simp only []
      case vNum q =>
        split
        · assumption
        · rfl
      all_goals rfl

theorem mapM_extraCost_members (elems : List Value) (costs : List ExtraCost)
    (h : elems.mapM normExtraCostElem = .ok costs) : ∀ c ∈ costs, 0 ≤ c.value := by
  induction elems generalizing costs with
  | nil =>
    simp only [List.mapM_nil, except_pure_eq, Except.ok.injEq] at h
    subst h
    intro c hc
    cases hc
  | cons x rest ih =>
    rw [List.mapM_cons] at h
    cases hx : normExtraCostElem x with
    | error u => rw [hx, except_bind_er] at h; exact Except.noConfusion h
    | ok c0 =>
      rw [hx, except_bind_ok] at h
      cases hrest : rest.mapM normExtraCostElem with
      | error u => rw [hrest, except_bind_er] at h; exact Except.noConfusion h
      | ok cs =>
        rw [hrest, except_bind_ok, except_pure_eq, Except.ok.injEq] at h
        subst h
        intro c hc
        rcases List.mem_cons.mp hc with h1 | h1
        · exact h1 ▸ normExtraCostElem_value_nonneg x c0 hx
        · exact ih cs hrest c h1

theorem normalizeExtraCosts_WF (v : Value) (l : List ExtraCost)
    (h : normalizeExtraCosts v = .ok l) : WFExtraCosts l := by
  intro c hc
  cases v with
  | vNum q =>
    simp only [normalizeExtraCosts, Except.ok.injEq] at h
    subst h
    split at hc
    · rw [List.mem_singleton.mp hc]
      constructor
      · exact le_of_lt (by assumption)
      · right; assumption
    · cases hc
  | vArr elems =>
    cases hm : elems.mapM normExtraCostElem with
    | error u =>
      rw [show normalizeExtraCosts (.vArr elems)
          = (elems.mapM normExtraCostElem).map (fun costs => costs.filter
            (fun c => !(jsTrim c.description == "") || decide (0 < c.value))) from rfl,
        hm] at h
      exact Except.noConfusion h
    | ok costs =>
      rw [show normalizeExtraCosts (.vArr elems)
          = (elems.mapM normExtraCostElem).map (fun costs => costs.filter
            (fun c => !(jsTrim c.description == "") || decide (0 < c.value))) from rfl,
        hm] at h
      rw [show Except.map (fun costs => costs.filter
            (fun c => !(jsTrim c.description == "") || decide (0 < c.value)))
          (Except.ok costs) = Except.ok (costs.filter
            (fun c => !(jsTrim c.description == "") || decide (0 < c.value))) from rfl,
        Except.ok.injEq] at h
      subst h
      constructor
      · exact mapM_extraCost_members elems costs hm c (List.mem_of_mem_filter hc)
      · have hp := List.of_mem_filter hc
        rcases Bool.or_eq_true_iff.mp hp with h1 | h1
        · left
          simpa using h1
        · right
          simpa using h1
  | vNull =>
    simp only [normalizeExtraCosts, Except.ok.injEq] at h
    subst h; cases hc
  | vBool b =>
    simp only [normalizeExtraCosts, Except.ok.injEq] at h
    subst h; cases hc
  | vNaN =>
    simp only [normalizeExtraCosts, Except.ok.injEq] at h
    subst h; cases hc
  | vStr s =>
    simp only [normalizeExtraCosts, Except.ok.injEq] at h
    subst h; cases hc
  | vObj fields =>
    simp only [normalizeExtraCosts, Except.ok.injEq] at h
    subst h; cases hc

theorem normalizeExtraCosts_roundtrip (l : List ExtraCost) (h : WFExtraCosts l) :
    normalizeExtraCosts (.vArr (l.map ExtraCost.toValue)) = .ok l := by
  show ((l.map ExtraCost.toValue).mapM normExtraCostElem).map _ = _
  rw [mapM_extraCost_ok _ (by
    intro e he
    rcases List.mem_map.mp he with ⟨c, _, rfl⟩
    rfl)]
  show Except.ok _ = Except.ok l
  rw [Except.ok.injEq, List.map_map]
  have core : ∀ (l2 : List ExtraCost), WFExtraCosts l2 →
      (l2.map (specRepairExtraCost ∘ ExtraCost.toValue)).filter
        (fun c => !(jsTrim c.description == "") || decide (0 < c.value)) = l2 := by
    intro l2
    induction l2 with
    | nil => intro _; rfl
    | cons c rest ih =>
      intro hl
      obtain ⟨h1, h2⟩ := hl c (List.mem_cons_self _ _)
      have hrepair : specRepairExtraCost (ExtraCost.toValue c) = c := by
        show ExtraCost.mk c.description (if 0 ≤ c.value then c.value else 0) = c
        rw [if_pos h1]
      have hkeep : (!(jsTrim c.description == "") || decide (0 < c.value)) = true := by
        rcases h2 with h2 | h2
        · simp [h2]
        · simp [h2]
      simp only [List.map_cons, Function.comp_apply, hrepair, List.filter_cons, hkeep, if_true]
      rw [ih (fun x hx => hl x (List.mem_cons_of_mem _ hx))]
  exact core l h

theorem normBudgetAttemptElem_obj (env : ImpureEnv) (i : ℕ) (fields : List (String × Value)) :
    normBudgetAttemptElem env i (.vObj fields) = some
      { id := match jsValueAt fields "id" with
          | .vStr s => if jsTrim s == "" then env.mkAttemptId i else s
          | _ => env.mkAttemptId i
        name := match jsValueAt fields "name" with
          | .vStr s => if jsTrim s == "" then "Saved attempt" else s
          | _ => "Saved attempt"
        createdAt := match jsValueAt fields "createdAt" with
          | .vNum q => q
          | _ => env.now
        flightAssignments := normalizeFlightAssignments (jsValueAt fields "flightAssignments")
        selectedAccommodationId := match jsValueAt fields "selectedAccommodationId" with
          | .vStr s => s
          | _ => ""
        totalCost := match jsValueAt fields "totalCost" with | .vNum q => q | _ => 0
        remaining := match jsValueAt fields "remaining" with | .vNum q => q | _ => 0
        perPersonTotal := match jsValueAt fields "perPersonTotal" with
          | .vNum q => q
          | _ => 0 } := rfl

theorem normBudgetAttemptElem_WF (env : ImpureEnv) (i : ℕ) (e : Value) (a : BudgetAttempt)
    (h : normBudgetAttemptElem env i e = some a) : WFAttempt a := by
  cases e with
  | vObj fields =>
    rw [normBudgetAttemptElem_obj, Option.some.injEq] at h
    subst h
    refine ⟨?_, ?_, normalizeFlightAssignments_WF _⟩
    · show (jsTrim (match jsValueAt fields "id" with
        | .vStr s => if jsTrim s == "" then env.mkAttemptId i else s
        | _ => env.mkAttemptId i) == "") = false
      cases jsValueAt fields "id" with
      | vStr s =>
        cases hs : (jsTrim s == "") with
        | true => simp only [hs, if_true]; exact beq_eq_false_iff_ne.mpr (env.mkAttemptId_ok i)
        | false => simp [hs]
      | vNull => exact beq_eq_false_iff_ne.mpr (env.mkAttemptId_ok i)
      | vBool b => exact beq_eq_false_iff_ne.mpr (env.mkAttemptId_ok i)
      | vNum q => exact beq_eq_false_iff_ne.mpr (env.mkAttemptId_ok i)
      | vNaN => exact beq_eq_false_iff_ne.mpr (env.mkAttemptId_ok i)
      | vArr elems => exact beq_eq_false_iff_ne.mpr (env.mkAttemptId_ok i)
      | vObj fields2 => exact beq_eq_false_iff_ne.mpr (env.mkAttemptId_ok i)
    · show (jsTrim (match jsValueAt fields "name" with
        | .vStr s => if jsTrim s == "" then "Saved attempt" else s
        | _ => "Saved attempt") == "") = false
      cases jsValueAt fields "name" with
      | vStr s =>
        cases hs : (jsTrim s == "") with
        | true => simp only [hs, if_true]; exact (by decide : (jsTrim "Saved attempt" == "") = false)
        | false => simp [hs]
      | vNull => exact (by decide : (jsTrim "Saved attempt" == "") = false)
      | vBool b => exact (by decide : (jsTrim "Saved attempt" == "") = false)
      | vNum q => exact (by decide : (jsTrim "Saved attempt" == "") = false)
      | vNaN => exact (by decide : (jsTrim "Saved attempt" == "") = false)
      | vArr elems => exact (by decide : (jsTrim "Saved attempt" == "") = false)
      | vObj fields2 => exact (by decide : (jsTrim "Saved attempt" == "") = false)
  | vNull => exact Option.noConfusion h
  | vBool b => exact Option.noConfusion h
  | vNum q => exact Option.noConfusion h
  | vNaN => exact Option.noConfusion h
  | vStr s => exact Option.noConfusion h
  | vArr elems => exact Option.noConfusion h

theorem normalizeBudgetAttempts_WF (env : ImpureEnv) (v : Value) :
    ∀ a ∈ normalizeBudgetAttempts env v, WFAttempt a := by
  intro a ha
  cases v with
  | vArr elems =>
    have ha2 : a ∈ ((elems.enum.map
        (fun p => normBudgetAttemptElem env p.1 p.2)).reduceOption) :=
      List.take_subset 40 _ ha
    have ha3 := List.reduceOption_mem_iff.mp ha2
    rcases List.mem_map.mp ha3 with ⟨p, _, hp⟩
    exact normBudgetAttemptElem_WF env p.1 p.2 a hp
  | vNull => cases ha
  | vBool b => cases ha
  | vNum q => cases ha
  | vNaN => cases ha
  | vStr s => cases ha
  | vObj fields => cases ha

theorem attempt_id_ne_blank (a : BudgetAttempt) (h : (jsTrim a.id == "") = false) :
    (a.id == "") = false := by
  cases hbeq : (a.id == "") with
  | false => rfl
  | true =>
    rw [eq_of_beq hbeq] at h
    exact absurd h (by decide)

theorem normBudgetAttemptElem_roundtrip (env : ImpureEnv) (i : ℕ) (a : BudgetAttempt)
    (h : WFAttempt a) : normBudgetAttemptElem env i a.toValue = some a := by
  obtain ⟨hid, hname, hfa⟩ := h
  have hassign := normalizeFlightAssignments_roundtrip a.flightAssignments hfa
  show some (BudgetAttempt.mk
      (if jsTrim a.id == "" then env.mkAttemptId i else a.id)
      (if jsTrim a.name == "" then "Saved attempt" else a.name)
      a.createdAt
      (normalizeFlightAssignments (assignmentsToValue a.flightAssignments))
      a.selectedAccommodationId a.totalCost a.remaining a.perPersonTotal) = some a
  rw [hassign]
  simp only [hid, hname, Bool.false_eq_true, if_false]

theorem normalizeBudgetAttempts_singleton (env : ImpureEnv) (a : BudgetAttempt)
    (h : WFAttempt a) : normalizeBudgetAttempts env (.vArr [a.toValue]) = [a] := by
  show ((([a.toValue] : List Value).enum.map
    (fun p => normBudgetAttemptElem env p.1 p.2)).reduceOption).take 40 = [a]
  rw [show (([a.toValue] : List Value).enum.map (fun p => normBudgetAttemptElem env p.1 p.2))
      = [normBudgetAttemptElem env 0 a.toValue] from rfl]
  rw [normBudgetAttemptElem_roundtrip env 0 a h]
  rfl

theorem normalizeBudgetEstimator_unfold (env : ImpureEnv) (v : Value) :
    normalizeBudgetEstimator env v =
      { flightAssignments := normalizeFlightAssignments (getFieldOpt v "flightAssignments")
        selectedAccommodationId := match getFieldOpt v "selectedAccommodationId" with
          | .vStr s => s
          | _ => ""
        fixedAttemptId :=
          match List.head? (match ((normalizeBudgetAttempts env (getFieldOpt v "attempts")).find?
              (fun a => a.id == storedFixedAttemptId v)).orElse
                (fun _ => (normalizeBudgetAttempts env (getFieldOpt v "attempts")).head?) with
            | some a => [a]
            | none => ([] : List BudgetAttempt)) with
          | some a => if a.id == "" then "" else a.id
          | none => ""
        attempts :=
          match ((normalizeBudgetAttempts env (getFieldOpt v "attempts")).find?
              (fun a => a.id == storedFixedAttemptId v)).orElse
                (fun _ => (normalizeBudgetAttempts env (getFieldOpt v "attempts")).head?) with
          | some a => [a]
          | none => [] } := rfl

theorem normalizeBudgetEstimator_WF (env : ImpureEnv) (v : Value) :
    WFEstimator (normalizeBudgetEstimator env v) := by
  rw [normalizeBudgetEstimator_unfold]
  refine ⟨normalizeFlightAssignments_WF _, ?_, ?_, ?_⟩
  · cases hpref : ((normalizeBudgetAttempts env (getFieldOpt v "attempts")).find?
        (fun a => a.id == storedFixedAttemptId v)).orElse
          (fun _ => (normalizeBudgetAttempts env (getFieldOpt v "attempts")).head?) with
    | none => intro a ha; cases ha
    | some a =>
      intro b hb
      rw [List.mem_singleton.mp hb]
      have ha : a ∈ normalizeBudgetAttempts env (getFieldOpt v "attempts") := by
        cases hfind : (normalizeBudgetAttempts env (getFieldOpt v "attempts")).find?
            (fun x => x.id == storedFixedAttemptId v) with
        | some b2 =>
          have hb2 := List.mem_of_find?_eq_some hfind
          have hba : b2 = a := by
            rw [hfind] at hpref
            simpa [Option.orElse] using hpref
          exact hba ▸ hb2
        | none =>
          rw [hfind] at hpref
          have hh : (normalizeBudgetAttempts env (getFieldOpt v "attempts")).head? = some a := by
            simpa [Option.orElse] using hpref
          exact List.mem_of_mem_head? (Option.mem_def.mpr hh)
      exact normalizeBudgetAttempts_WF env _ a ha
  · cases ((normalizeBudgetAttempts env (getFieldOpt v "attempts")).find?
        (fun a => a.id == storedFixedAttemptId v)).orElse
          (fun _ => (normalizeBudgetAttempts env (getFieldOpt v "attempts")).head?) <;> simp
  · cases ((normalizeBudgetAttempts env (getFieldOpt v "attempts")).find?
        (fun a => a.id == storedFixedAttemptId v)).orElse
          (fun _ => (normalizeBudgetAttempts env (getFieldOpt v "attempts")).head?) with
    | none => rfl
    | some a =>
      show (if a.id == "" then "" else a.id) = a.id
      cases hbeq : (a.id == "") with
      | false => simp [hbeq]
      | true => simp only [hbeq, if_true]; exact (eq_of_beq hbeq).symm

theorem normalizeBudgetEstimator_roundtrip (env : ImpureEnv) (e : BudgetEstimatorState)
    (h : WFEstimator e) : normalizeBudgetEstimator env e.toValue = e := by
  obtain ⟨hfa, hatts, hlen, hfid⟩ := h
  obtain ⟨fa, sel, fid, atts⟩ := e
  cases atts with
  | nil =>
    have hfid2 : fid = "" := hfid
    subst hfid2
    show BudgetEstimatorState.mk (normalizeFlightAssignments (assignmentsToValue fa)) sel "" []
      = BudgetEstimatorState.mk fa sel "" []
    rw [normalizeFlightAssignments_roundtrip fa hfa]
  | cons a rest =>
    cases rest with
    | cons b r2 => simp at hlen
    | nil =>
      have hfid2 : fid = a.id := hfid
      subst hfid2
      have hWFa : WFAttempt a := hatts a (List.mem_cons_self _ _)
      rw [normalizeBudgetEstimator_unfold]
      rw [show getFieldOpt (BudgetEstimatorState.toValue ⟨fa, sel, a.id, [a]⟩) "attempts"
          = .vArr [a.toValue] from rfl]
      rw [show getFieldOpt (BudgetEstimatorState.toValue ⟨fa, sel, a.id, [a]⟩) "flightAssignments"
          = assignmentsToValue fa from rfl]
      rw [show getFieldOpt (BudgetEstimatorState.toValue ⟨fa, sel, a.id, [a]⟩)
          "selectedAccommodationId" = .vStr sel from rfl]
      rw [show storedFixedAttemptId (BudgetEstimatorState.toValue ⟨fa, sel, a.id, [a]⟩)
          = a.id from rfl]
      rw [normalizeBudgetAttempts_singleton env a hWFa]
      rw [normalizeFlightAssignments_roundtrip fa hfa]
      rw [show ([a].find? (fun x => x.id == a.id)) = some a by
        simp [List.find?]]
      show BudgetEstimatorState.mk fa sel (if a.id == "" then "" else a.id) [a]
        = BudgetEstimatorState.mk fa sel a.id [a]
      rw [show (a.id == "") = false from attempt_id_ne_blank a hWFa.1]
      rfl

theorem coercedPrice_nonneg (fields : List (String × Value)) (k : String) :
    0 ≤ coercedPrice fields k := by
  unfold coercedPrice
  cases parseNumberValue (jsValueAt fields k) with
  | none => exact le_refl 0
  | some p =>
    show 0 ≤ if 0 ≤ p then p else 0
    split
    · assumption
    · exact le_refl 0

theorem normalizeFlightDraft_price_nonneg (v : Value) :
    ∀ q, (normalizeFlightDraft v).pricePerPerson = some q → 0 ≤ q := by
  intro q
  cases v with
  | vObj fields =>
    show (match jsValueAt fields "pricePerPerson" with
      | Value.vNum p => if 0 ≤ p then some p else none
      | _ => none) = some q → 0 ≤ q
    cases jsValueAt fields "pricePerPerson" with
    | vNum p =>
      intro hq
      have hq2 : (if 0 ≤ p then some p else none) = some q := hq
      by_cases hp : 0 ≤ p
      · rw [if_pos hp, Option.some.injEq] at hq2
        rw [← hq2]
        exact hp
      · rw [if_neg hp] at hq2
        exact Option.noConfusion hq2
    | vNull => exact fun hq => Option.noConfusion hq
    | vBool b => exact fun hq => Option.noConfusion hq
    | vNaN => exact fun hq => Option.noConfusion hq
    | vStr s => exact fun hq => Option.noConfusion hq
    | vArr elems => exact fun hq => Option.noConfusion hq
    | vObj fields2 => exact fun hq => Option.noConfusion hq
  | vNull => exact fun hq => Option.noConfusion hq
  | vBool b => exact fun hq => Option.noConfusion hq
  | vNum p => exact fun hq => Option.noConfusion hq
  | vNaN => exact fun hq => Option.noConfusion hq
  | vStr s => exact fun hq => Option.noConfusion hq
  | vArr elems => exact fun hq => Option.noConfusion hq

theorem normalizeAccommodationDraft_price_nonneg (v : Value) :
    ∀ q, (normalizeAccommodationDraft v).totalPrice = some q → 0 ≤ q := by
  intro q
  cases v with
  | vObj fields =>
    show (match jsValueAt fields "totalPrice" with
      | Value.vNum p => if 0 ≤ p then some p else none
      | _ => none) = some q → 0 ≤ q
    cases jsValueAt fields "totalPrice" with
    | vNum p =>
      intro hq
      have hq2 : (if 0 ≤ p then some p else none) = some q := hq
      by_cases hp : 0 ≤ p
      · rw [if_pos hp, Option.some.injEq] at hq2
        rw [← hq2]
        exact hp
      · rw [if_neg hp] at hq2
        exact Option.noConfusion hq2
    | vNull => exact fun hq => Option.noConfusion hq
    | vBool b => exact fun hq => Option.noConfusion hq
    | vNaN => exact fun hq => Option.noConfusion hq
    | vStr s => exact fun hq => Option.noConfusion hq
    | vArr elems => exact fun hq => Option.noConfusion hq
    | vObj fields2 => exact fun hq => Option.noConfusion hq
  | vNull => exact fun hq => Option.noConfusion hq
  | vBool b => exact fun hq => Option.noConfusion hq
  | vNum p => exact fun hq => Option.noConfusion hq
  | vNaN => exact fun hq => Option.noConfusion hq
  | vStr s => exact fun hq => Option.noConfusion hq
  | vArr elems => exact fun hq => Option.noConfusion hq

theorem normalizeFlightDraft_roundtrip (d : FlightDraft)
    (h : ∀ q, d.pricePerPerson = some q → 0 ≤ q) :
    normalizeFlightDraft d.toValue = d := by
  obtain ⟨l, de, sd, ed, p⟩ := d
  show FlightDraft.mk _ _ _ _ _ = FlightDraft.mk l de sd ed p
  simp only [FlightDraft.mk.injEq]
  refine ⟨?_, ?_, ?_, ?_, ?_⟩
  · cases l <;> rfl
  · cases de <;> rfl
  · cases sd <;> rfl
  · cases ed <;> rfl
  · cases p with
    | none => rfl
    | some q =>
      show (if 0 ≤ q then some q else none) = some q
      rw [if_pos (h q rfl)]

theorem normalizeAccommodationDraft_roundtrip (d : AccommodationDraft)
    (h : ∀ q, d.totalPrice = some q → 0 ≤ q) :
    normalizeAccommodationDraft d.toValue = d := by
  obtain ⟨l, de, sd, ed, p⟩ := d
  show AccommodationDraft.mk _ _ _ _ _ = AccommodationDraft.mk l de sd ed p
  simp only [AccommodationDraft.mk.injEq]
  refine ⟨?_, ?_, ?_, ?_, ?_⟩
  · cases l <;> rfl
  · cases de <;> rfl
  · cases sd <;> rfl
  · cases ed <;> rfl
  · cases p with
    | none => rfl
    | some q =>
      show (if 0 ≤ q then some q else none) = some q
      rw [if_pos (h q rfl)]

theorem normalizeFlightList_WF (v : Value) :
    ∀ f ∈ normalizeFlightList v, (jsTrim f.id == "") = false ∧ 0 ≤ f.pricePerPerson := by
  intro f hf
  cases v with
  | vArr elems =>
    have hf2 := List.reduceOption_mem_iff.mp hf
    rcases List.mem_map.mp hf2 with ⟨e, he, hfe⟩
    rw [flightElem_eq e] at hfe
    by_cases hk : keepsListedRecord e
    · rw [if_pos hk, Option.some.injEq] at hfe
      subst hfe
      cases e with
      | vObj fields =>
        revert hk
        show (match jsValueAt fields "id" with
          | Value.vStr s => !(jsTrim s == "")
          | _ => false) = true → _
        cases hid : jsValueAt fields "id" with
        | vStr s =>
          intro hk
          constructor
          · show (jsTrim (match jsValueAt fields "id" with
              | Value.vStr s => s
              | _ => "") == "") = false
            rw [hid]
            simpa using hk
          · exact coercedPrice_nonneg fields "pricePerPerson"
        | vNull => exact fun hk => absurd hk (by simp)
        | vBool b => exact fun hk => absurd hk (by simp)
        | vNum q => exact fun hk => absurd hk (by simp)
        | vNaN => exact fun hk => absurd hk (by simp)
        | vArr elems2 => exact fun hk => absurd hk (by simp)
        | vObj fields2 => exact fun hk => absurd hk (by simp)
      | vNull => exact absurd hk (by simp [keepsListedRecord])
      | vBool b => exact absurd hk (by simp [keepsListedRecord])
      | vNum q => exact absurd hk (by simp [keepsListedRecord])
      | vNaN => exact absurd hk (by simp [keepsListedRecord])
      | vStr s => exact absurd hk (by simp [keepsListedRecord])
      | vArr elems2 => exact absurd hk (by simp [keepsListedRecord])
    · rw [if_neg hk] at hfe
      exact Option.noConfusion hfe
  | vNull => cases hf
  | vBool b => cases hf
  | vNum q => cases hf
  | vNaN => cases hf
  | vStr s => cases hf
  | vObj fields => cases hf

theorem normalizeAccommodationList_WF (v : Value) :
    ∀ a ∈ normalizeAccommodationList v, (jsTrim a.id == "") = false ∧ 0 ≤ a.totalPrice := by
  intro a ha
  cases v with
  | vArr elems =>
    have ha2 := List.reduceOption_mem_iff.mp ha
    rcases List.mem_map.mp ha2 with ⟨e, he, hae⟩
    rw [accommodationElem_eq e] at hae
    by_cases hk : keepsListedRecord e
    · rw [if_pos hk, Option.some.injEq] at hae
      subst hae
      cases e with
      | vObj fields =>
        revert hk
        show (match jsValueAt fields "id" with
          | Value.vStr s => !(jsTrim s == "")
          | _ => false) = true → _
        cases hid : jsValueAt fields "id" with
        | vStr s =>
          intro hk
          constructor
          · show (jsTrim (match jsValueAt fields "id" with
              | Value.vStr s => s
              | _ => "") == "") = false
            rw [hid]
            simpa using hk
          · exact coercedPrice_nonneg fields "totalPrice"
        | vNull => exact fun hk => absurd hk (by simp)
        | vBool b => exact fun hk => absurd hk (by simp)
        | vNum q => exact fun hk => absurd hk (by simp)
        | vNaN => exact fun hk => absurd hk (by simp)
        | vArr elems2 => exact fun hk => absurd hk (by simp)
        | vObj fields2 => exact fun hk => absurd hk (by simp)
      | vNull => exact absurd hk (by simp [keepsListedRecord])
      | vBool b => exact absurd hk (by simp [keepsListedRecord])
      | vNum q => exact absurd hk (by simp [keepsListedRecord])
      | vNaN => exact absurd hk (by simp [keepsListedRecord])
      | vStr s => exact absurd hk (by simp [keepsListedRecord])
      | vArr elems2 => exact absurd hk (by simp [keepsListedRecord])
    · rw [if_neg hk] at hae
      exact Option.noConfusion hae
  | vNull => cases ha
  | vBool b => cases ha
  | vNum q => cases ha
  | vNaN => cases ha
  | vStr s => cases ha
  | vObj fields => cases ha

theorem normalizeFlightList_roundtrip (l : List Flight)
    (h : ∀ f ∈ l, (jsTrim f.id == "") = false ∧ 0 ≤ f.pricePerPerson) :
    normalizeFlightList (.vArr (l.map Flight.toValue)) = l := by
  show ((l.map Flight.toValue).map _).reduceOption = l
  rw [List.map_congr_left (fun e _ => flightElem_eq e),
    reduceOption_map_ite keepsListedRecord specRepairFlight]
  have core : ∀ (l2 : List Flight),
      (∀ f ∈ l2, (jsTrim f.id == "") = false ∧ 0 ≤ f.pricePerPerson) →
      ((l2.map Flight.toValue).filter keepsListedRecord).map specRepairFlight = l2 := by
    intro l2
    induction l2 with
    | nil => intro _; rfl
    | cons f rest ih =>
      intro hl
      obtain ⟨h1, h2⟩ := hl f (List.mem_cons_self _ _)
      have hkeep : keepsListedRecord (Flight.toValue f) = true := by
        show (!(jsTrim f.id == "")) = true
        rw [h1]
        rfl
      have hrepair : specRepairFlight (Flight.toValue f) = f := by
        show Flight.mk f.id f.link f.description f.startDate f.endDate
          (if 0 ≤ f.pricePerPerson then f.pricePerPerson else 0) = f
        rw [if_pos h2]
      simp only [List.map_cons, List.filter_cons, hkeep, if_true, List.map_cons, hrepair]
      rw [ih (fun x hx => hl x (List.mem_cons_of_mem _ hx))]
  exact core l h

theorem normalizeAccommodationList_roundtrip (l : List Accommodation)
    (h : ∀ a ∈ l, (jsTrim a.id == "") = false ∧ 0 ≤ a.totalPrice) :
    normalizeAccommodationList (.vArr (l.map Accommodation.toValue)) = l := by
  show ((l.map Accommodation.toValue).map _).reduceOption = l
  rw [List.map_congr_left (fun e _ => accommodationElem_eq e),
    reduceOption_map_ite keepsListedRecord specRepairAccommodation]
  have core : ∀ (l2 : List Accommodation),
      (∀ a ∈ l2, (jsTrim a.id == "") = false ∧ 0 ≤ a.totalPrice) →
      ((l2.map Accommodation.toValue).filter keepsListedRecord).map
        specRepairAccommodation = l2 := by
    intro l2
    induction l2 with
    | nil => intro _; rfl
    | cons a rest ih =>
      intro hl
      obtain ⟨h1, h2⟩ := hl a (List.mem_cons_self _ _)
      have hkeep : keepsListedRecord (Accommodation.toValue a) = true := by
        show (!(jsTrim a.id == "")) = true
        rw [h1]
        rfl
      have hrepair : specRepairAccommodation (Accommodation.toValue a) = a := by
        show Accommodation.mk a.id a.link a.description a.startDate a.endDate
          (if 0 ≤ a.totalPrice then a.totalPrice else 0) = a
        rw [if_pos h2]
      simp only [List.map_cons, List.filter_cons, hkeep, if_true, List.map_cons, hrepair]
      rw [ih (fun x hx => hl x (List.mem_cons_of_mem _ hx))]
  exact core l h

theorem normalizeSettings_pc_int (cand : Value) (fb : PlannerSettings) (hfb : WFSettings fb) :
    0 < (normalizeSettings cand fb).peopleCount →
    ((⌊(normalizeSettings cand fb).peopleCount⌋ : ℤ) : ℚ)
      = (normalizeSettings cand fb).peopleCount := by
  cases cand with
  | vObj fields =>
    show 0 < ((match jsValueAt fields "peopleCount" with
        | Value.vNum q => if 0 < q then ((⌊q⌋ : ℤ) : ℚ) else fb.peopleCount
        | _ => fb.peopleCount) : ℚ) →
      ((⌊((match jsValueAt fields "peopleCount" with
        | Value.vNum q => if 0 < q then ((⌊q⌋ : ℤ) : ℚ) else fb.peopleCount
        | _ => fb.peopleCount) : ℚ)⌋ : ℤ) : ℚ)
      = ((match jsValueAt fields "peopleCount" with
        | Value.vNum q => if 0 < q then ((⌊q⌋ : ℤ) : ℚ) else fb.peopleCount
        | _ => fb.peopleCount) : ℚ)
    cases jsValueAt fields "peopleCount" with
    | vNum q =>
      show 0 < (if 0 < q then ((⌊q⌋ : ℤ) : ℚ) else fb.peopleCount) →
        ((⌊(if 0 < q then ((⌊q⌋ : ℤ) : ℚ) else fb.peopleCount)⌋ : ℤ) : ℚ)
        = (if 0 < q then ((⌊q⌋ : ℤ) : ℚ) else fb.peopleCount)
      by_cases hq : 0 < q
      · rw [if_pos hq]
        intro _
        rw [Int.floor_intCast]
      · rw [if_neg hq]
        intro _
        exact hfb.2.2
    | vNull => intro _; exact hfb.2.2
    | vBool b => intro _; exact hfb.2.2
    | vNaN => intro _; exact hfb.2.2
    | vStr s => intro _; exact hfb.2.2
    | vArr elems => intro _; exact hfb.2.2
    | vObj fields2 => intro _; exact hfb.2.2
  | vNull => intro _; exact hfb.2.2
  | vBool b => intro _; exact hfb.2.2
  | vNum q => intro _; exact hfb.2.2
  | vNaN => intro _; exact hfb.2.2
  | vStr s => intro _; exact hfb.2.2
  | vArr elems => intro _; exact hfb.2.2

theorem normalizeSettings_roundtrip (cand : Value) (fb : PlannerSettings) (hfb : WFSettings fb) :
    normalizeSettings (normalizeSettings cand fb).toValue (normalizeSettings cand fb)
      = normalizeSettings cand fb := by
  have hint := normalizeSettings_pc_int cand fb hfb
  show PlannerSettings.mk
      (if 0 ≤ (normalizeSettings cand fb).totalBudget
        then (normalizeSettings cand fb).totalBudget
        else (normalizeSettings cand fb).totalBudget)
      (if 0 < (normalizeSettings cand fb).peopleCount
        then ((⌊(normalizeSettings cand fb).peopleCount⌋ : ℤ) : ℚ)
        else (normalizeSettings cand fb).peopleCount)
    = normalizeSettings cand fb
  have h1 : (if 0 ≤ (normalizeSettings cand fb).totalBudget
      then (normalizeSettings cand fb).totalBudget
      else (normalizeSettings cand fb).totalBudget)
      = (normalizeSettings cand fb).totalBudget := by
    split <;> rfl
  have h2 : (if 0 < (normalizeSettings cand fb).peopleCount
      then ((⌊(normalizeSettings cand fb).peopleCount⌋ : ℤ) : ℚ)
      else (normalizeSettings cand fb).peopleCount)
      = (normalizeSettings cand fb).peopleCount := by
    split
    · exact hint (by assumption)
    · rfl
  rw [h1, h2]

theorem normalizeDestinationCandidate_of_WF (env2 : ImpureEnv) (d : Destination)
    (hid : (jsTrim d.id == "") = false) (hname : (jsTrim d.name == "") = false)
    (hec : WFExtraCosts d.extraCosts) (hbe : WFEstimator d.budgetEstimator)
    (hfd : ∀ q, d.flightDraft.pricePerPerson = some q → 0 ≤ q)
    (had : ∀ q, d.accommodationDraft.totalPrice = some q → 0 ≤ q)
    (hfl : ∀ f ∈ d.flights, (jsTrim f.id == "") = false ∧ 0 ≤ f.pricePerPerson)
    (hal : ∀ a ∈ d.accommodations, (jsTrim a.id == "") = false ∧ 0 ≤ a.totalPrice) :
    normalizeDestinationCandidate env2 d.toValue = .ok (some d) := by
  obtain ⟨id, name, la, lo, notes, ec, be, fd, ad, fl, al⟩ := d
  show (if jsTrim id == "" || jsTrim name == "" then Except.ok none
    else (normalizeDestination env2
      { id, name, latitude := la, longitude := lo
        notes := Value.vStr notes
        extraCosts := Value.vArr (ec.map ExtraCost.toValue)
        budgetEstimator := BudgetEstimatorState.toValue be
        flightDraft := FlightDraft.toValue fd
        accommodationDraft := AccommodationDraft.toValue ad
        flights := normalizeFlightList (.vArr (fl.map Flight.toValue))
        accommodations :=
          normalizeAccommodationList (.vArr (al.map Accommodation.toValue)) }).map some)
    = Except.ok (some ⟨id, name, la, lo, notes, ec, be, fd, ad, fl, al⟩)
  rw [show (jsTrim id == "" || jsTrim name == "") = false by rw [hid, hname]; rfl]
  simp only [Bool.false_eq_true, if_false]
  rw [normalizeFlightList_roundtrip fl hfl, normalizeAccommodationList_roundtrip al hal]
  show ((normalizeExtraCosts (Value.vArr (ec.map ExtraCost.toValue))).map _).map some = _
  rw [normalizeExtraCosts_roundtrip ec hec]
  show Except.ok (some (Destination.mk id name la lo notes ec
      (normalizeBudgetEstimator env2 (BudgetEstimatorState.toValue be))
      (normalizeFlightDraft (FlightDraft.toValue fd))
      (normalizeAccommodationDraft (AccommodationDraft.toValue ad)) fl al))
    = Except.ok (some (Destination.mk id name la lo notes ec be fd ad fl al))
  rw [normalizeBudgetEstimator_roundtrip env2 be hbe,
    normalizeFlightDraft_roundtrip fd hfd,
    normalizeAccommodationDraft_roundtrip ad had]

theorem normalizeDestinationCandidate_roundtrip (env env2 : ImpureEnv) (v : Value)
    (d : Destination) (h : normalizeDestinationCandidate env v = .ok (some d)) :
    normalizeDestinationCandidate env2 d.toValue = .ok (some d) := by
  unfold normalizeDestinationCandidate at h
  split at h
  · split at h
    · rename_i x0 fields x1 x2 id name heqid heqname
      split at h
      · simp at h
      · rename_i hblank
        split at h
        · rename_i la lo hla hlo
          cases hnd : normalizeDestination env
              { id, name, latitude := la, longitude := lo
                notes := jsValueAt fields "notes"
                extraCosts := jsValueAt fields "extraCosts"
                budgetEstimator := jsValueAt fields "budgetEstimator"
                flightDraft := jsValueAt fields "flightDraft"
                accommodationDraft := jsValueAt fields "accommodationDraft"
                flights := normalizeFlightList (jsValueAt fields "flights")
                accommodations :=
                  normalizeAccommodationList (jsValueAt fields "accommodations") } with
          | error u =>
            rw [hnd] at h
            exact Except.noConfusion h
          | ok d0 =>
            rw [hnd] at h
            have hd0 : d0 = d := by
              have h2 : Except.ok (some d0) = Except.ok (some d) := h
              rw [Except.ok.injEq, Option.some.injEq] at h2
              exact h2
            subst hd0
            unfold normalizeDestination at hnd
            cases hec : normalizeExtraCosts (jsValueAt fields "extraCosts") with
            | error u =>
              rw [hec] at hnd
              exact Except.noConfusion hnd
            | ok E =>
              rw [hec] at hnd
              have hnd2 : Except.ok (Destination.mk id name la lo
                  (match jsValueAt fields "notes" with | .vStr s => s | _ => "") E
                  (normalizeBudgetEstimator env (jsValueAt fields "budgetEstimator"))
                  (normalizeFlightDraft (jsValueAt fields "flightDraft"))
                  (normalizeAccommodationDraft (jsValueAt fields "accommodationDraft"))
                  (normalizeFlightList (jsValueAt fields "flights"))
                  (normalizeAccommodationList (jsValueAt fields "accommodations")))
                = Except.ok d0 := hnd
              rw [Except.ok.injEq] at hnd2
              subst hnd2
              have hblank2 : (jsTrim id == "") = false ∧ (jsTrim name == "") = false := by
                have hb := hblank
                simp only [Bool.or_eq_true, not_or, Bool.not_eq_true] at hb
                exact hb
              refine normalizeDestinationCandidate_of_WF env2 _ hblank2.1 hblank2.2
                (normalizeExtraCosts_WF _ E hec)
                (normalizeBudgetEstimator_WF env _)
                (normalizeFlightDraft_price_nonneg _)
                (normalizeAccommodationDraft_price_nonneg _)
                (normalizeFlightList_WF _)
                (normalizeAccommodationList_WF _)
        · simp at h
    · simp at h
  · simp at h

/-- Claim C7: normalization is idempotent on its own output. A destination
produced by the full per-destination pipeline (notes, extra costs, budget
estimator, drafts, flight and accommodation lists) re-normalizes to a
deep-equal value under any environment, and normalized settings re-normalize
to themselves when the repeated run falls back, as the application does after
adopting them, to the settings produced by the first run; the first run's
fallback settings are assumed to satisfy the spec invariants
(`totalBudget >= 0`, `peopleCount` a positive integer). -/
theorem normalization_idempotent (env env2 : ImpureEnv) (v : Value) (d : Destination)
    (h : normalizeDestinationCandidate env v = .ok (some d))
    (cand : Value) (fb : PlannerSettings) (hfb : WFSettings fb) :
    normalizeDestinationCandidate env2 d.toValue = .ok (some d) ∧
    normalizeSettings (normalizeSettings cand fb).toValue (normalizeSettings cand fb)
      = normalizeSettings cand fb :=
  ⟨normalizeDestinationCandidate_roundtrip env env2 v d h,
   normalizeSettings_roundtrip cand fb hfb⟩

/-- Witness for claim C7 at a concrete destination and settings payload. -/
theorem normalization_idempotent_witness :
    normalizeDestinationCandidate testEnv
        (.vObj [("id", .vStr "d1"), ("name", .vStr "Rome"),
                ("latitude", .vNum 1), ("longitude", .vNum 2)])
      = .ok (some ⟨"d1", "Rome", 1, 2, "", [], ⟨[], "", "", []⟩, {}, {}, [], []⟩) ∧
    WFSettings ⟨5000, 5⟩ ∧
    normalizeDestinationCandidate testEnv
        (Destination.toValue ⟨"d1", "Rome", 1, 2, "", [], ⟨[], "", "", []⟩, {}, {}, [], []⟩)
      = .ok (some ⟨"d1", "Rome", 1, 2, "", [], ⟨[], "", "", []⟩, {}, {}, [], []⟩) ∧
    normalizeSettings
        (PlannerSettings.toValue (normalizeSettings
          (.vObj [("totalBudget", .vNum 100), ("peopleCount", .vNum 3)]) ⟨5000, 5⟩))
        (normalizeSettings
          (.vObj [("totalBudget", .vNum 100), ("peopleCount", .vNum 3)]) ⟨5000, 5⟩)
      = normalizeSettings
          (.vObj [("totalBudget", .vNum 100), ("peopleCount", .vNum 3)]) ⟨5000, 5⟩ := by
  have h := normalization_idempotent testEnv testEnv
    (.vObj [("id", .vStr "d1"), ("name", .vStr "Rome"),
            ("latitude", .vNum 1), ("longitude", .vNum 2)])
    ⟨"d1", "Rome", 1, 2, "", [], ⟨[], "", "", []⟩, {}, {}, [], []⟩ rfl
    (.vObj [("totalBudget", .vNum 100), ("peopleCount", .vNum 3)]) ⟨5000, 5⟩
    (by constructor
        · norm_num
        · constructor
          · norm_num
          · norm_num)
  exact ⟨rfl, ⟨by norm_num, by norm_num, by norm_num⟩, h.1, h.2⟩
